import Mathlib

/-!
# Network device statistics collector (node_exporter `collector/netdev_*`)

A shallow embedding of the two platform variants of the netdev collector core:

* `collector/netdev_linux.go`: `parseNetDevStats` / `getNetDevStats`, the parser of the
  `/proc/net/dev` text format;
* `collector/netdev_freebsd.go`: `getNetDevStats`, the walker over the `getifaddrs` list.

Go strings are modelled as `List Char` (texts are taken to be valid UTF-8; where the size
of a text in bytes matters, in the buffer of `bufio.Scanner`, a character counts for its
UTF-8 bytes), Go maps as association lists with unique keys (`GoMap`), and a Go result
pair `(value, error)` as `Except`.
-/

set_option autoImplicit false

namespace Collector

/-- Go `string`. -/
abbrev Str := List Char

/-! ## Go maps -/

/-- Go `map[string]V`: an association list; `GoMap.set` keeps the keys unique. -/
abbrev GoMap (V : Type) := List (Str × V)

namespace GoMap

variable {V : Type}

/-- The map literal `map[string]V{}`. -/
def empty : GoMap V := []

/-- The assignment `m[k] = v`: the entry of `k`, if any, is replaced. -/
def set (m : GoMap V) (k : Str) (v : V) : GoMap V :=
  (k, v) :: m.filter (fun e => !(e.1 == k))

/-- The lookup `v, ok := m[k]`. -/
def get? : GoMap V → Str → Option V
  | [], _ => none
  | (k', v) :: m, k => if k' = k then some v else get? m k

/-- The keys of the map. -/
def keys (m : GoMap V) : List Str := m.map Prod.fst

/-- The built-in `len(m)`. -/
def len (m : GoMap V) : Nat := m.length

end GoMap

/-! ## Library functions used by the collector -/

/-- Go `unicode.IsSpace`: the Latin-1 spaces and the characters of the Unicode
White_Space property. -/
def isSpace (c : Char) : Bool :=
  let n := c.toNat
  n == 0x20 || (0x09 ≤ n && n ≤ 0x0D) || n == 0x85 || n == 0xA0 || n == 0x1680 ||
  (0x2000 ≤ n && n ≤ 0x200A) || n == 0x2028 || n == 0x2029 || n == 0x202F ||
  n == 0x205F || n == 0x3000

/-- Prepend a character to the first piece of a split. -/
def consHead (c : Char) : List Str → List Str
  | [] => [[c]]
  | f :: fs => (c :: f) :: fs

/-- Go `strings.Split(s, sep)` for a one-character separator: the pieces between
the occurrences of `sep`; always at least one piece. -/
def stringsSplit (sep : Char) : Str → List Str
  | [] => [[]]
  | c :: cs => if c = sep then [] :: stringsSplit sep cs else consHead c (stringsSplit sep cs)

/-- Worker of `stringsFields`: `cur` is the field being read, reversed. -/
def stringsFieldsAux : Str → Str → List Str
  | cur, [] => if cur = [] then [] else [cur.reverse]
  | cur, c :: cs =>
    if isSpace c then
      (if cur = [] then stringsFieldsAux [] cs else cur.reverse :: stringsFieldsAux [] cs)
    else stringsFieldsAux (c :: cur) cs

/-- Go `strings.Fields(s)`: the maximal runs of non-space characters. -/
def stringsFields (s : Str) : List Str := stringsFieldsAux [] s

/-- Go `strings.TrimLeft(s, " ")`: the leading spaces are removed. -/
def stringsTrimLeft (s : Str) : Str := s.dropWhile (fun c => c == ' ')

/-- Worker of `fieldSepSplit`; `inSep` says that the previous character belongs to a
match of the separator pattern, which a following space extends. -/
def fieldSepSplitAux : Bool → Str → List Str
  | _, [] => [[]]
  | inSep, c :: cs =>
    if inSep && c == ' ' then fieldSepSplitAux true cs
    else if c == ' ' || c == ':' then [] :: fieldSepSplitAux true cs
    else consHead c (fieldSepSplitAux false cs)

/-- The call `fieldSep.Split(line, -1)` with `fieldSep = regexp.MustCompile("[ :] *")`:
a match is one space or colon and all the spaces that follow it; the pieces between the
successive leftmost matches are returned, the piece after the last match included. -/
def fieldSepSplit (line : Str) : List Str := fieldSepSplitAux false line

/-- Worker of `scanLines`: `cur` is the line being read, reversed. -/
def scanLinesAux : Str → Str → List Str
  | cur, [] => if cur = [] then [] else [(match cur with | '\r' :: t => t | _ => cur).reverse]
  | cur, c :: cs =>
    if c = '\n' then (match cur with | '\r' :: t => t | _ => cur).reverse :: scanLinesAux [] cs
    else scanLinesAux (c :: cur) cs

/-- The tokens of a `bufio.Scanner` with the default split function `bufio.ScanLines`
over a text: the lines without their end-of-line marker (`\n`, or `\r\n`); a last line
without newline counts when it is not empty. -/
def scanLines (data : Str) : List Str := scanLinesAux [] data

/-- The constant `bufio.MaxScanTokenSize`, the size in bytes that the buffer of a
`bufio.Scanner` grows to. -/
def maxScanTokenSize : Nat := 64 * 1024

/-- Worker of `scanOutcomes`: `cur` is the line being read, reversed, and `n` its size in
bytes (a character counts for its UTF-8 bytes). -/
def scanOutcomesAux : Str → Nat → Str → List (Bool × Str)
  | cur, _, [] =>
    if cur = [] then [] else [(true, (match cur with | '\r' :: t => t | _ => cur).reverse)]
  | cur, n, c :: cs =>
    if c = '\n' then
      (true, (match cur with | '\r' :: t => t | _ => cur).reverse) :: scanOutcomesAux [] 0 cs
    else if n + c.utf8Size < maxScanTokenSize then
      scanOutcomesAux (c :: cur) (n + c.utf8Size) cs
    else if n + c.utf8Size = maxScanTokenSize then
      [(false, []), (true, (match c :: cur with | '\r' :: t => t | _ => c :: cur).reverse)]
    else
      [(false, []), (true, cur.reverse)]

/-- The successive results of `Scan()` on a `bufio.Scanner` with the default split function
`bufio.ScanLines` over a reader that delivers the text `data` and then reports the end of
the input or an error by a read of its own, as files do. Each result is the Boolean that
`Scan()` returns and the token that `Text()` then gives; after the last result of the list
every `Scan()` returns `false` with an empty token.

A line shorter than `maxScanTokenSize` bytes is delivered without its end-of-line marker
(`\n`, or `\r\n`); a last line without newline counts when it is not empty. When a line
has `maxScanTokenSize` bytes or more before its newline, the buffer is full without
holding a token: that `Scan()` fails (`ErrTooLong`) with an empty token, the next `Scan()`
returns the content of the buffer, the first `maxScanTokenSize` bytes of the line, as a
token, and nothing after it is read. (When a multi-byte character straddles the limit the
buffer also holds its first bytes; they are no text and are left out here.) -/
def scanOutcomes (data : Str) : List (Bool × Str) := scanOutcomesAux [] 0 data

/-- Worker of `linesFit`: `n` is the size in bytes of the line being read. -/
def linesFitAux : Nat → Str → Bool
  | _, [] => true
  | n, c :: cs =>
    if c = '\n' then linesFitAux 0 cs
    else decide (n + c.utf8Size < maxScanTokenSize) && linesFitAux (n + c.utf8Size) cs

/-- Every line of the text, a carriage return before its newline included, is shorter
than `maxScanTokenSize` bytes. -/
def linesFit (data : Str) : Bool := linesFitAux 0 data

/-- Go `strconv.Itoa`: the decimal text of a signed integer. -/
def strconvItoa (i : Int) : Str :=
  if i < 0 then '-' :: Nat.toDigits 10 i.natAbs else Nat.toDigits 10 i.toNat

/-- The result type of both `getNetDevStats`: device name to counter name to value text. -/
abbrev DeviceStats := GoMap (GoMap Str)

/-- The statement `netDev[dev][key] = value`. The inner map is the one stored under
`dev`; both call sites create that entry first, so the lookup finds it. -/
def setCounter (netDev : DeviceStats) (dev key value : Str) : DeviceStats :=
  netDev.set dev (((netDev.get? dev).getD GoMap.empty).set key value)

/-! ## `collector/netdev_linux.go` -/

namespace Linux

/-- The constant `procNetDev`. -/
def procNetDev : Str := "/proc/net/dev".toList

/-- What `bufio.NewScanner` gets to read: `data` is the text that the reader delivers, and
`err` tells whether the reader then reports an error instead of the end of the input. -/
structure Reader where
  data : Str
  err : Bool

/-- State of a `bufio.Scanner`: the results of the calls of `Scan()` still to come (see
`scanOutcomes`), the current token, and the error the scan ends with. -/
structure Scanner where
  rest : List (Bool × Str)
  token : Str
  err : Bool

/-- The call `bufio.NewScanner(r)`. The scan ends with an error when the reader reports
one or when a line does not fit the buffer. -/
def NewScanner (r : Reader) : Scanner := ⟨scanOutcomes r.data, [], r.err || !linesFit r.data⟩

/-- The call `scanner.Scan()`: the next result and token; once the scan is over the answer
is `false` and the current token is empty. -/
def Scanner.Scan (s : Scanner) : Bool × Scanner :=
  match s.rest with
  | [] => (false, { s with token := [] })
  | (ok, t) :: ts => (ok, { s with rest := ts, token := t })

/-- The call `scanner.Text()`. -/
def Scanner.Text (s : Scanner) : Str := s.token

/-- The call `scanner.Err()`: the error that ended the scan, if any. The parser never
calls it. -/
def Scanner.Err (s : Scanner) : Bool := s.err

/-- The error `fmt.Errorf("Invalid header line in %s: %s", procNetDev, text)`. -/
def invalidHeaderLine (text : Str) : Str :=
  "Invalid header line in ".toList ++ procNetDev ++ ": ".toList ++ text

/-- The error `fmt.Errorf("Invalid line in %s: %s", procNetDev, text)`. -/
def invalidLine (text : Str) : Str :=
  "Invalid line in ".toList ++ procNetDev ++ ": ".toList ++ text

/-- The loop `for i, v := range header` of `parseNetDevStats`, from index `i` on, `vs`
being the header fields not yet visited. -/
def storeFields (header parts : List Str) (dev : Str) : Nat → List Str → DeviceStats → DeviceStats
  | _, [], netDev => netDev
  | i, v :: vs, netDev =>
    let netDev := setCounter netDev dev ("receive_".toList ++ v) (parts.getD (i + 1) [])
    let netDev := setCounter netDev dev ("transmit_".toList ++ v)
      (parts.getD (i + 1 + header.length) [])
    storeFields header parts dev (i + 1) vs netDev

/-- The loop `for scanner.Scan()` of `parseNetDevStats` over the results of `Scan()` still
to come: it ends at the first `false`. -/
def scanRows (ignore : Str → Bool) (header : List Str) :
    List (Bool × Str) → DeviceStats → Except Str DeviceStats
  | [], netDev => .ok netDev
  | (false, _) :: _, netDev => .ok netDev
  | (true, text) :: rest, netDev =>
    let line := stringsTrimLeft text
    let parts := fieldSepSplit line
    if parts.length ≠ 2 * header.length + 1 then
      .error (invalidLine text)
    else
      let dev := (parts.getD 0 []).take (parts.getD 0 []).length
      if ignore dev then
        scanRows ignore header rest netDev
      else
        let netDev := netDev.set dev GoMap.empty
        scanRows ignore header rest (storeFields header parts dev 0 header netDev)

/-- The function `parseNetDevStats(r, ignore)`; `ignore` is `ignore.MatchString`. -/
def parseNetDevStats (r : Reader) (ignore : Str → Bool) : Except Str DeviceStats :=
  let scanner := NewScanner r
  let scanner := scanner.Scan.2
  let scanner := scanner.Scan.2
  let parts := stringsSplit '|' scanner.Text
  if parts.length ≠ 3 then
    .error (invalidHeaderLine scanner.Text)
  else
    let header := stringsFields (parts.getD 1 [])
    let netDev : DeviceStats := GoMap.empty
    scanRows ignore header scanner.rest netDev

/-- The function `getNetDevStats(ignore)`; `file` is the outcome of `os.Open(procNetDev)`. -/
def getNetDevStats (file : Except Str Reader) (ignore : Str → Bool) : Except Str DeviceStats :=
  match file with
  | .error err => .error err
  | .ok f => parseNetDevStats f ignore

/-- The default of the flag `collector.netdev.ignored-devices`. -/
def netdevIgnoredDevices : Str := "^$".toList

/-- The method `MatchString` of `regexp.MustCompile("^$")`: the pattern is anchored at the
start and at the end of the text with nothing between, so only the empty text matches. -/
def matchEmptyOnly (s : Str) : Bool := s.isEmpty

/-- The method `MatchString` of `regexp.MustCompile("^eth")`: the texts starting with `eth`. -/
def matchEthPrefix (s : Str) : Bool := "eth".toList.isPrefixOf s

/-! ### Vocabulary of the statements about the text parser -/

/-- Every line of the stream fits the buffer of the scanner. -/
def Reader.fits (r : Reader) : Bool := linesFit r.data

/-- The lines of the stream. -/
def Reader.lines (r : Reader) : List Str := scanLines r.data

/-- The second line of the stream, when the stream has two lines. -/
def Reader.secondLine (r : Reader) : Option Str := r.lines.get? 1

/-- The data rows of the stream: every line after the second. -/
def Reader.dataRows (r : Reader) : List Str := r.lines.drop 2

/-- The fields of a data row: the row without its leading spaces, split on `fieldSep`. -/
def rowFields (text : Str) : List Str := fieldSepSplit (stringsTrimLeft text)

/-- The device name of a data row: its first field. -/
def rowDevice (text : Str) : Str := (rowFields text).getD 0 []

/-- The counter name `receive_<f>`. -/
def receiveName (f : Str) : Str := "receive_".toList ++ f

/-- The counter name `transmit_<f>`. -/
def transmitName (f : Str) : Str := "transmit_".toList ++ f

/-- The map `netDev[dev]` that `parseNetDevStats` builds from a row with fields `parts`:
the assignments of the loop over the header, from index `i` on, applied to `m`. -/
def fillFields (header parts : List Str) : Nat → List Str → GoMap Str → GoMap Str
  | _, [], m => m
  | i, v :: vs, m =>
    fillFields header parts (i + 1) vs
      ((m.set (receiveName v) (parts.getD (i + 1) [])).set (transmitName v)
        (parts.getD (i + 1 + header.length) []))

/-- A text without space and without colon. -/
def sepFree (s : Str) : Bool := s.all (fun c => !(c == ' ') && !(c == ':'))

/-- The values of a data row as text: each value comes with the number of spaces written
before it; one more space separates it from the value before. -/
def valuesText : List (Nat × Str) → Str
  | [] => []
  | [(g, v)] => List.replicate g ' ' ++ v
  | (g, v) :: vs => List.replicate g ' ' ++ v ++ ' ' :: valuesText vs

/-- A data row: `k` leading spaces, the device name, a colon, and the values. -/
def rowText (k : Nat) (dev : Str) (vals : List (Nat × Str)) : Str :=
  List.replicate k ' ' ++ dev ++ ':' :: valuesText vals

/-- A data row has the right number of fields for a header of `n` field names. -/
def rowOk (n : Nat) (text : Str) : Bool := (rowFields text).length == 2 * n + 1

/-- The loop `for scanner.Scan()` of `parseNetDevStats` when every `Scan()` still to come
succeeds, `rows` being the tokens: `scanRows` on the results `(true, row)`. -/
def rowLoop (ignore : Str → Bool) (header : List Str) :
    List Str → DeviceStats → Except Str DeviceStats
  | [], netDev => .ok netDev
  | text :: rest, netDev =>
    let line := stringsTrimLeft text
    let parts := fieldSepSplit line
    if parts.length ≠ 2 * header.length + 1 then
      .error (invalidLine text)
    else
      let dev := (parts.getD 0 []).take (parts.getD 0 []).length
      if ignore dev then
        rowLoop ignore header rest netDev
      else
        let netDev := netDev.set dev GoMap.empty
        rowLoop ignore header rest (storeFields header parts dev 0 header netDev)

/-- Worker of `whitespaceColonFields`. -/
def whitespaceColonFieldsAux : Bool → Str → List Str
  | _, [] => [[]]
  | inSep, c :: cs =>
    if inSep && isSpace c then whitespaceColonFieldsAux true cs
    else if isSpace c || c == ':' then [] :: whitespaceColonFieldsAux true cs
    else consHead c (whitespaceColonFieldsAux false cs)

/-- The fields of a text in the words of the specification, "splitting on
whitespace/colon": a separator is a whitespace character or a colon, with the whitespace
that follows it. It differs from `fieldSepSplit` in taking every whitespace character for
a separator, not the space only. -/
def whitespaceColonFields (line : Str) : List Str := whitespaceColonFieldsAux false line

end Linux

/-! ## `collector/netdev_freebsd.go` -/

namespace FreeBSD

/-- The constant `AF_LINK` of `sys/socket.h`. -/
def AF_LINK : Nat := 18

/-- The counters of `struct if_data` that the walker reads, each an unsigned 64-bit
integer. -/
structure if_data where
  ifi_ipackets : Nat
  ifi_opackets : Nat
  ifi_ierrors : Nat
  ifi_oerrors : Nat
  ifi_ibytes : Nat
  ifi_obytes : Nat
  ifi_imcasts : Nat
  ifi_omcasts : Nat
  ifi_iqdrops : Nat
  ifi_oqdrops : Nat

/-- One record of the `getifaddrs` list: its name, the family of `ifa_addr`, and the
statistics structure `ifa_data` points to. -/
structure ifaddrs where
  ifa_name : Str
  sa_family : Nat
  ifa_data : if_data

/-- The conversion `int(x)` of an unsigned 64-bit value to the 64-bit signed `int`. -/
def toInt (x : Nat) : Int :=
  if x % 2 ^ 64 < 2 ^ 63 then ((x % 2 ^ 64 : Nat) : Int) else ((x % 2 ^ 64 : Nat) : Int) - 2 ^ 64

/-- The body of the `if` of the loop: the `devStats` map of one link-layer record. -/
def devStatsOf (data : if_data) : GoMap Str :=
  let devStats : GoMap Str := GoMap.empty
  let devStats := devStats.set "receive_packets".toList (strconvItoa (toInt data.ifi_ipackets))
  let devStats := devStats.set "transmit_packets".toList (strconvItoa (toInt data.ifi_opackets))
  let devStats := devStats.set "receive_errs".toList (strconvItoa (toInt data.ifi_ierrors))
  let devStats := devStats.set "transmit_errs".toList (strconvItoa (toInt data.ifi_oerrors))
  let devStats := devStats.set "receive_bytes".toList (strconvItoa (toInt data.ifi_ibytes))
  let devStats := devStats.set "transmit_bytes".toList (strconvItoa (toInt data.ifi_obytes))
  let devStats := devStats.set "receive_multicast".toList (strconvItoa (toInt data.ifi_imcasts))
  let devStats := devStats.set "transmit_multicast".toList (strconvItoa (toInt data.ifi_omcasts))
  let devStats := devStats.set "receive_drop".toList (strconvItoa (toInt data.ifi_iqdrops))
  let devStats := devStats.set "transmit_drop".toList (strconvItoa (toInt data.ifi_oqdrops))
  devStats

/-- The loop `for ifa = ifap; ifa != nil; ifa = ifa.ifa_next`. -/
def walk : List ifaddrs → DeviceStats → DeviceStats
  | [], netDev => netDev
  | ifa :: next, netDev =>
    if ifa.sa_family = AF_LINK then
      walk next (netDev.set ifa.ifa_name (devStatsOf ifa.ifa_data))
    else
      walk next netDev

/-- The function `getNetDevStats()`; `ifap` is the list `C.getifaddrs` yields, `none` when
it returns -1. -/
def getNetDevStats (ifap : Option (List ifaddrs)) : Except Str DeviceStats :=
  let netDev : DeviceStats := GoMap.empty
  match ifap with
  | none => .error "getifaddrs() failed".toList
  | some ifap => .ok (walk ifap netDev)

end FreeBSD

/-! ## Rows and sample inputs used in the statements -/

namespace Linux

/-- A data row given by its parts: the number of leading spaces, the device name, and the
values, each with the number of spaces written before it (one more space separates a
value from the one before). -/
structure Row where
  lead : Nat
  dev : Str
  vals : List (Nat × Str)

/-- The text of a data row. -/
def Row.text (row : Row) : Str := rowText row.lead row.dev row.vals

/-- The values of a data row, in column order. -/
def Row.values (row : Row) : List Str := row.vals.map Prod.snd

/-- A matcher that excludes no device. -/
def matchNothing (_ : Str) : Bool := false

/-- The stream of the concrete scenario: banner, header with the four fields `bytes`,
`packets`, `errs`, `drop`, and the row of `eth0`. -/
def scenarioReader : Reader :=
  ⟨("Inter-|   Receive                                                |  Transmit\n" ++
    "face |bytes packets errs drop|bytes packets errs drop\n" ++
    "eth0: 1000 10 0 0 2000 20 0 0\n").toList, false⟩

/-- The row of `eth0` in the concrete scenario. -/
def scenarioRow : Row :=
  ⟨0, "eth0".toList, [(1, "1000".toList), (0, "10".toList), (0, "0".toList), (0, "0".toList),
    (0, "2000".toList), (0, "20".toList), (0, "0".toList), (0, "0".toList)]⟩

/-- A stream whose header names no field, with one row `eth0:`. -/
def noFieldReader : Reader := ⟨"Inter-|\nface ||\neth0:\n".toList, false⟩

/-- A stream with one field name and a row whose first value is empty. -/
def emptyValueReader : Reader := ⟨"Inter-|\nface |bytes|bytes\neth0:  5\n".toList, false⟩

/-- A stream whose header repeats a field name. -/
def repeatedFieldReader : Reader :=
  ⟨"Inter-|\nface |bytes bytes|bytes bytes\neth0: 1 2 3 4\n".toList, false⟩

/-- A stream with a row whose device name is empty. -/
def emptyNameReader : Reader := ⟨"Inter-|\nface |bytes|bytes\n: 1 2\nlo: 3 4\n".toList, false⟩

/-- A stream with the devices `eth0`, `lo` and `eth1`. -/
def threeDeviceReader : Reader :=
  ⟨"Inter-|\nface |bytes|bytes\neth0: 1 2\n  lo: 3 4\neth1:5 6\n".toList, false⟩

/-- A stream whose third line has too few fields, after a valid row. -/
def shortRowReader : Reader :=
  ⟨"Inter-|\nface |bytes|bytes\n  lo: 3 4\neth0: 1\n".toList, false⟩

/-- A stream whose second line has two segments only. -/
def badHeaderReader : Reader := ⟨"Inter-|\nface |bytes\neth0: 1 2\n".toList, false⟩

/-- A stream whose reading breaks off with an error after the row of `eth0`. -/
def failingReader : Reader :=
  ⟨"Inter-|\nface |bytes|bytes\neth0: 1 2\n".toList, true⟩

end Linux

namespace Linux

/-- The field of `netDevCollector` that the parser uses: `MatchString` of the compiled
pattern. -/
structure netDevCollector where
  ignoredDevicesPattern : Str → Bool

/-- The constructor `NewNetDevCollector()` with the flag left at its default
`netdevIgnoredDevices`: the pattern is `regexp.MustCompile("^$")`. -/
def NewNetDevCollector : netDevCollector := ⟨matchEmptyOnly⟩

end Linux

namespace FreeBSD

/-- The ten counter names that the walker writes. -/
def counterNames : List Str :=
  ["receive_packets".toList, "transmit_packets".toList, "receive_errs".toList,
   "transmit_errs".toList, "receive_bytes".toList, "transmit_bytes".toList,
   "receive_multicast".toList, "transmit_multicast".toList, "receive_drop".toList,
   "transmit_drop".toList]

/-- The constant `AF_INET` of `sys/socket.h`, the family of an IPv4 address record. -/
def AF_INET : Nat := 2

/-- The scenario list: link-layer records `lo0` and `en0`, and an address record of `en0`. -/
def scenarioList : List ifaddrs :=
  [⟨"lo0".toList, AF_LINK, ⟨1, 2, 3, 4, 5, 6, 7, 8, 9, 10⟩⟩,
   ⟨"en0".toList, AF_LINK, ⟨11, 12, 13, 14, 15, 16, 17, 18, 19, 20⟩⟩,
   ⟨"en0".toList, AF_INET, ⟨0, 0, 0, 0, 0, 0, 0, 0, 0, 0⟩⟩]

/-- A link-layer record of `em0` whose input packet counter is `2^63`. -/
def hugeCounterRecord : ifaddrs :=
  ⟨"em0".toList, AF_LINK, ⟨2 ^ 63, 0, 0, 0, 0, 0, 0, 0, 0, 0⟩⟩

end FreeBSD

namespace Linux

/-- A stream whose first line, 70000 times `x`, does not fit the buffer of the scanner;
its second line is the valid header `face |bytes|bytes`. -/
def longBannerReader : Reader :=
  ⟨List.replicate 70000 'x' ++ "\nface |bytes|bytes\neth0: 1 2\n".toList, false⟩

/-- A stream whose first line, `a|b|` and 70000 times `x`, does not fit the buffer of the
scanner; its second line is `garbage`. -/
def longBannerGarbageReader : Reader :=
  ⟨"a|b|".toList ++ (List.replicate 70000 'x' ++ "\ngarbage\neth0: 1 2\n".toList), false⟩

/-- A stream with the rows of `eth0`, `eth1` and `eth2`, where the first value of `eth1`,
70000 times the digit `1`, makes its row too long for the buffer of the scanner. -/
def longRowReader : Reader :=
  ⟨"Inter-|\nface |bytes|bytes\neth0: 1 2\neth1: ".toList ++
    (List.replicate 70000 '1' ++ " 2\neth2: 3 4\n".toList), false⟩

/-- A stream whose data row separates its two values by a tab. -/
def tabRowReader : Reader := ⟨"Inter-|\nface |bytes|bytes\neth0: 1\t2\n".toList, false⟩

end Linux

end Collector

/-! # Properties

## Go maps -/

namespace Collector

namespace GoMap

variable {V : Type}

theorem filter_cons_eq (m : GoMap V) (k : Str) (v : V) :
    List.filter (fun e => !(e.1 == k)) ((k, v) :: m) = List.filter (fun e => !(e.1 == k)) m := by
  rw [List.filter_cons_of_neg]; simp

theorem filter_cons_ne (m : GoMap V) (k a : Str) (v : V) (h : a ≠ k) :
    List.filter (fun e => !(e.1 == k)) ((a, v) :: m)
      = (a, v) :: List.filter (fun e => !(e.1 == k)) m := by
  rw [List.filter_cons_of_pos]; simpa using h

theorem get?_filter_ne (m : GoMap V) (k k' : Str) (h : k' ≠ k) :
    get? (m.filter (fun e => !(e.1 == k))) k' = get? m k' := by
  induction m with
  | nil => rfl
  | cons e m ih =>
    obtain ⟨a, v⟩ := e
    by_cases ha : a = k
    · subst ha
      have hne : ¬ a = k' := fun h' => h h'.symm
      rw [filter_cons_eq, ih]
      simp [get?, hne]
    · rw [filter_cons_ne m k a v ha]
      by_cases hk : a = k'
      · simp [get?, hk]
      · simp [get?, hk, ih]

theorem get?_set (m : GoMap V) (k k' : Str) (v : V) :
    (m.set k v).get? k' = if k = k' then some v else m.get? k' := by
  by_cases h : k = k'
  · simp [set, get?, h]
  · have h' : k' ≠ k := fun e => h e.symm
    simp [set, get?, h, get?_filter_ne m k k' h']

theorem mem_keys_set (m : GoMap V) (k k' : Str) (v : V) :
    k' ∈ (m.set k v).keys ↔ k' = k ∨ k' ∈ m.keys := by
  simp only [keys, set, List.map_cons, List.mem_cons, List.mem_map, List.mem_filter]
  constructor
  · rintro (h | ⟨e, ⟨he, _⟩, rfl⟩)
    · exact Or.inl h
    · exact Or.inr ⟨e, he, rfl⟩
  · rintro (h | ⟨e, he, rfl⟩)
    · exact Or.inl h
    · by_cases hk : e.1 = k
      · exact Or.inl hk
      · exact Or.inr ⟨e, ⟨he, by simpa using hk⟩, rfl⟩

theorem nodup_keys_set (m : GoMap V) (k : Str) (v : V) (h : m.keys.Nodup) :
    (m.set k v).keys.Nodup := by
  simp only [keys, set, List.map_cons, List.nodup_cons, List.mem_map, List.mem_filter]
  refine ⟨?_, ?_⟩
  · rintro ⟨e, ⟨_, he⟩, rfl⟩
    simp at he
  · exact (List.Nodup.sublist (List.Sublist.map _ (List.filter_sublist _)) h)

theorem set_set (m : GoMap V) (k : Str) (a b : V) : (m.set k a).set k b = m.set k b := by
  simp [set, List.filter_filter, filter_cons_eq]

theorem mem_keys_iff (m : GoMap V) (k : Str) : k ∈ m.keys ↔ (m.get? k).isSome = true := by
  induction m with
  | nil => simp [keys, get?]
  | cons e m ih =>
    obtain ⟨a, v⟩ := e
    by_cases ha : a = k
    · subst ha
      simp only [keys, List.map_cons, List.mem_cons, get?, if_true, true_or, Option.isSome_some]
    · have : ¬ k = a := fun h => ha h.symm
      simp only [keys, List.map_cons, List.mem_cons, get?, ha, if_false, this, false_or]
      exact ih

theorem get?_eq_none (m : GoMap V) (k : Str) (h : k ∉ m.keys) : m.get? k = none := by
  rw [mem_keys_iff] at h
  simpa using h

end GoMap


/-! ## The text parser -/

namespace Linux

theorem scanOutcomesAux_of_fit : ∀ (data cur : Str) (n : Nat), linesFitAux n data = true →
    scanOutcomesAux cur n data = (scanLinesAux cur data).map (Prod.mk true) := by
  intro data
  induction data with
  | nil =>
    intro cur n _
    by_cases hc : cur = []
    · simp [scanOutcomesAux, scanLinesAux, hc]
    · simp [scanOutcomesAux, scanLinesAux, hc]
  | cons c cs ih =>
    intro cur n h
    by_cases hn : c = '\n'
    · simp only [linesFitAux, hn, if_true] at h
      simp only [scanOutcomesAux, scanLinesAux, hn, if_true, List.map_cons]
      rw [ih [] 0 h]
    · simp only [linesFitAux, hn, if_false, Bool.and_eq_true, decide_eq_true_eq] at h
      simp only [scanOutcomesAux, scanLinesAux, hn, if_false, h.1, if_true]
      exact ih _ _ h.2

theorem scanOutcomes_of_fit (data : Str) (h : linesFit data = true) :
    scanOutcomes data = (scanLines data).map (Prod.mk true) :=
  scanOutcomesAux_of_fit data [] 0 h

theorem scanRows_delivered (ignore : Str → Bool) (header : List Str) :
    ∀ (rows : List Str) (netDev : DeviceStats),
      scanRows ignore header (rows.map (Prod.mk true)) netDev
        = rowLoop ignore header rows netDev := by
  intro rows
  induction rows with
  | nil => intro netDev; rfl
  | cons text rest ih =>
    intro netDev
    simp only [List.map_cons, scanRows, rowLoop]
    split
    · rfl
    · split
      · exact ih _
      · exact ih _

theorem parseNetDevStats_eq (r : Reader) (ignore : Str → Bool) (hfit : r.fits = true) :
    parseNetDevStats r ignore =
      if (stringsSplit '|' (r.lines.getD 1 [])).length ≠ 3 then
        .error (invalidHeaderLine (r.lines.getD 1 []))
      else
        rowLoop ignore (stringsFields ((stringsSplit '|' (r.lines.getD 1 [])).getD 1 []))
          r.dataRows GoMap.empty := by
  unfold parseNetDevStats NewScanner Reader.dataRows Reader.lines
  rw [scanOutcomes_of_fit r.data hfit]
  rcases scanLines r.data with _ | ⟨a, _ | ⟨b, rest⟩⟩
  · rfl
  · rfl
  · simp only [List.map_cons, Scanner.Scan, Scanner.Text, List.drop_succ_cons, List.drop_zero]
    rw [scanRows_delivered]
    rfl

theorem setCounter_set (netDev : DeviceStats) (dev key value : Str) (m : GoMap Str) :
    setCounter (netDev.set dev m) dev key value = netDev.set dev (m.set key value) := by
  unfold setCounter
  rw [GoMap.get?_set, GoMap.set_set]
  simp

theorem storeFields_set (header parts : List Str) (dev : Str) (vs : List Str) :
    ∀ (i : Nat) (netDev : DeviceStats) (m : GoMap Str),
      storeFields header parts dev i vs (netDev.set dev m)
        = netDev.set dev (fillFields header parts i vs m) := by
  induction vs with
  | nil => intro i netDev m; rfl
  | cons v vs ih =>
    intro i netDev m
    simp only [storeFields, fillFields]
    rw [setCounter_set, setCounter_set, ih]
    rfl

theorem rowLoop_cons (ignore : Str → Bool) (header : List Str) (text : Str) (rest : List Str)
    (netDev : DeviceStats) :
    rowLoop ignore header (text :: rest) netDev =
      if rowOk header.length text = false then .error (invalidLine text)
      else if ignore (rowDevice text) = true then rowLoop ignore header rest netDev
      else rowLoop ignore header rest
        (netDev.set (rowDevice text) (fillFields header (rowFields text) 0 header GoMap.empty)) := by
  simp only [rowLoop, rowOk, rowDevice, rowFields, List.take_length, storeFields_set]
  by_cases h : (fieldSepSplit (stringsTrimLeft text)).length = 2 * header.length + 1
  · simp [h]
  · simp [h]

end Linux

namespace Linux

theorem rowLoop_ok_iff (ignore : Str → Bool) (header : List Str) :
    ∀ (rows : List Str) (netDev : DeviceStats),
      (∃ s, rowLoop ignore header rows netDev = .ok s)
        ↔ ∀ row ∈ rows, rowOk header.length row = true := by
  intro rows
  induction rows with
  | nil => intro netDev; simp [rowLoop]
  | cons text rest ih =>
    intro netDev
    rw [rowLoop_cons]
    by_cases hok : rowOk header.length text = true
    · by_cases hig : ignore (rowDevice text) = true
      · simp only [hok, hig, if_true, Bool.true_eq_false, if_false, List.mem_cons, forall_eq_or_imp,
          true_and]
        exact ih netDev
      · simp only [hok, hig, Bool.true_eq_false, if_false, List.mem_cons, forall_eq_or_imp,
          true_and]
        exact ih _
    · have hf : rowOk header.length text = false := by simpa using hok
      simp [hf]

theorem rowLoop_error (ignore : Str → Bool) (header : List Str) :
    ∀ (rows : List Str) (netDev : DeviceStats) (e : Str),
      rowLoop ignore header rows netDev = .error e →
        ∃ pre row post, rows = pre ++ row :: post ∧
          (∀ x ∈ pre, rowOk header.length x = true) ∧ rowOk header.length row = false ∧
          e = invalidLine row := by
  intro rows
  induction rows with
  | nil => intro netDev e h; simp [rowLoop] at h
  | cons text rest ih =>
    intro netDev e h
    rw [rowLoop_cons] at h
    by_cases hok : rowOk header.length text = true
    · have step : ∀ nd, rowLoop ignore header rest nd = .error e →
          ∃ pre row post, text :: rest = pre ++ row :: post ∧
            (∀ x ∈ pre, rowOk header.length x = true) ∧ rowOk header.length row = false ∧
            e = invalidLine row := by
        intro nd hnd
        obtain ⟨pre, row, post, hsplit, hpre, hrow, he⟩ := ih nd e hnd
        refine ⟨text :: pre, row, post, by simp [hsplit], ?_, hrow, he⟩
        intro x hx
        rcases List.mem_cons.1 hx with rfl | hx
        · exact hok
        · exact hpre x hx
      by_cases hig : ignore (rowDevice text) = true
      · simp only [hok, hig, if_true, Bool.true_eq_false, if_false] at h
        exact step _ h
      · simp only [hok, hig, Bool.true_eq_false, if_false] at h
        exact step _ h
    · have hf : rowOk header.length text = false := by simpa using hok
      simp only [hf, if_true, Except.error.injEq] at h
      exact ⟨[], text, rest, rfl, by simp, hf, h.symm⟩

theorem rowLoop_keys (ignore : Str → Bool) (header : List Str) :
    ∀ (rows : List Str) (netDev s : DeviceStats),
      rowLoop ignore header rows netDev = .ok s →
        ∀ d, d ∈ s.keys ↔
          d ∈ netDev.keys ∨ ∃ row ∈ rows, rowDevice row = d ∧ ignore d = false := by
  intro rows
  induction rows with
  | nil =>
    intro netDev s h d
    simp only [rowLoop, Except.ok.injEq] at h
    subst h
    simp
  | cons text rest ih =>
    intro netDev s h d
    rw [rowLoop_cons] at h
    by_cases hok : rowOk header.length text = true
    · by_cases hig : ignore (rowDevice text) = true
      · simp only [hok, hig, if_true, Bool.true_eq_false, if_false] at h
        rw [ih netDev s h d]
        constructor
        · rintro (h1 | ⟨row, hrow, h2⟩)
          · exact Or.inl h1
          · exact Or.inr ⟨row, List.mem_cons_of_mem _ hrow, h2⟩
        · rintro (h1 | ⟨row, hrow, h2, h3⟩)
          · exact Or.inl h1
          · rcases List.mem_cons.1 hrow with rfl | hrow
            · rw [h2, h3] at hig
              exact absurd hig (by simp)
            · exact Or.inr ⟨row, hrow, h2, h3⟩
      · simp only [hok, hig, Bool.true_eq_false, if_false] at h
        rw [ih _ s h d, GoMap.mem_keys_set]
        have hig' : ignore (rowDevice text) = false := by simpa using hig
        constructor
        · rintro ((h1 | h1) | ⟨row, hrow, h2⟩)
          · exact Or.inr ⟨text, List.mem_cons_self _ _, h1.symm, h1 ▸ hig'⟩
          · exact Or.inl h1
          · exact Or.inr ⟨row, List.mem_cons_of_mem _ hrow, h2⟩
        · rintro (h1 | ⟨row, hrow, h2, h3⟩)
          · exact Or.inl (Or.inr h1)
          · rcases List.mem_cons.1 hrow with rfl | hrow
            · exact Or.inl (Or.inl h2.symm)
            · exact Or.inr ⟨row, hrow, h2, h3⟩
    · have hf : rowOk header.length text = false := by simpa using hok
      simp [hf] at h

theorem rowLoop_get?_source (ignore : Str → Bool) (header : List Str) :
    ∀ (rows : List Str) (netDev s : DeviceStats),
      rowLoop ignore header rows netDev = .ok s →
        ∀ d cs, s.get? d = some cs →
          netDev.get? d = some cs ∨
            ∃ row ∈ rows, rowDevice row = d ∧ ignore d = false ∧
              cs = fillFields header (rowFields row) 0 header GoMap.empty := by
  intro rows
  induction rows with
  | nil =>
    intro netDev s h d cs hcs
    simp only [rowLoop, Except.ok.injEq] at h
    subst h
    exact Or.inl hcs
  | cons text rest ih =>
    intro netDev s h d cs hcs
    rw [rowLoop_cons] at h
    by_cases hok : rowOk header.length text = true
    · by_cases hig : ignore (rowDevice text) = true
      · simp only [hok, hig, if_true, Bool.true_eq_false, if_false] at h
        rcases ih netDev s h d cs hcs with h1 | ⟨row, hrow, h2⟩
        · exact Or.inl h1
        · exact Or.inr ⟨row, List.mem_cons_of_mem _ hrow, h2⟩
      · simp only [hok, hig, Bool.true_eq_false, if_false] at h
        have hig' : ignore (rowDevice text) = false := by simpa using hig
        rcases ih _ s h d cs hcs with h1 | ⟨row, hrow, h2⟩
        · rw [GoMap.get?_set] at h1
          by_cases hd : rowDevice text = d
          · rw [if_pos hd] at h1
            refine Or.inr ⟨text, List.mem_cons_self _ _, hd, hd ▸ hig', ?_⟩
            exact (Option.some.inj h1).symm
          · rw [if_neg hd] at h1
            exact Or.inl h1
        · exact Or.inr ⟨row, List.mem_cons_of_mem _ hrow, h2⟩
    · have hf : rowOk header.length text = false := by simpa using hok
      simp [hf] at h

theorem rowLoop_get?_untouched (ignore : Str → Bool) (header : List Str) (d : Str) :
    ∀ (rows : List Str) (netDev s : DeviceStats),
      rowLoop ignore header rows netDev = .ok s →
        (∀ x ∈ rows, rowDevice x ≠ d) → s.get? d = netDev.get? d := by
  intro rows
  induction rows with
  | nil =>
    intro netDev s h _
    simp only [rowLoop, Except.ok.injEq] at h
    subst h
    rfl
  | cons text rest ih =>
    intro netDev s h hne
    rw [rowLoop_cons] at h
    have hrest : ∀ x ∈ rest, rowDevice x ≠ d := fun x hx => hne x (List.mem_cons_of_mem _ hx)
    have htext : rowDevice text ≠ d := hne text (List.mem_cons_self _ _)
    by_cases hok : rowOk header.length text = true
    · by_cases hig : ignore (rowDevice text) = true
      · simp only [hok, hig, if_true, Bool.true_eq_false, if_false] at h
        exact ih netDev s h hrest
      · simp only [hok, hig, Bool.true_eq_false, if_false] at h
        rw [ih _ s h hrest, GoMap.get?_set, if_neg htext]
    · have hf : rowOk header.length text = false := by simpa using hok
      simp [hf] at h

theorem rowLoop_get?_last (ignore : Str → Bool) (header : List Str) (row : Str)
    (post : List Str) (hig : ignore (rowDevice row) = false)
    (hpost : ∀ x ∈ post, rowDevice x ≠ rowDevice row) :
    ∀ (pre : List Str) (netDev s : DeviceStats),
      rowLoop ignore header (pre ++ row :: post) netDev = .ok s →
        s.get? (rowDevice row)
          = some (fillFields header (rowFields row) 0 header GoMap.empty) := by
  intro pre
  induction pre with
  | nil =>
    intro netDev s h
    rw [List.nil_append, rowLoop_cons] at h
    by_cases hok : rowOk header.length row = true
    · simp only [hok, hig, Bool.true_eq_false, if_false] at h
      rw [rowLoop_get?_untouched ignore header _ post _ s h hpost, GoMap.get?_set, if_pos rfl]
    · have hf : rowOk header.length row = false := by simpa using hok
      simp [hf] at h
  | cons text rest ih =>
    intro netDev s h
    rw [List.cons_append, rowLoop_cons] at h
    by_cases hok : rowOk header.length text = true
    · by_cases hig' : ignore (rowDevice text) = true
      · simp only [hok, hig', if_true, Bool.true_eq_false, if_false] at h
        exact ih netDev s h
      · simp only [hok, hig', Bool.true_eq_false, if_false] at h
        exact ih _ s h
    · have hf : rowOk header.length text = false := by simpa using hok
      simp [hf] at h

end Linux

namespace Linux

theorem receiveName_inj {f g : Str} (h : receiveName f = receiveName g) : f = g :=
  List.append_cancel_left h

theorem transmitName_inj {f g : Str} (h : transmitName f = transmitName g) : f = g :=
  List.append_cancel_left h

theorem receiveName_ne_transmitName (f g : Str) : receiveName f ≠ transmitName g := by
  intro h
  have h0 := congrArg List.head? h
  simp [receiveName, transmitName] at h0

theorem fillFields_keys (header parts : List Str) (vs : List Str) :
    ∀ (i : Nat) (m : GoMap Str) (k : Str),
      k ∈ (fillFields header parts i vs m).keys ↔
        k ∈ m.keys ∨ ∃ f ∈ vs, k = receiveName f ∨ k = transmitName f := by
  induction vs with
  | nil => intro i m k; simp [fillFields]
  | cons v vs ih =>
    intro i m k
    simp only [fillFields]
    rw [ih, GoMap.mem_keys_set, GoMap.mem_keys_set]
    constructor
    · rintro ((h | h | h) | ⟨f, hf, h⟩)
      · exact Or.inr ⟨v, List.mem_cons_self _ _, Or.inr h⟩
      · exact Or.inr ⟨v, List.mem_cons_self _ _, Or.inl h⟩
      · exact Or.inl h
      · exact Or.inr ⟨f, List.mem_cons_of_mem _ hf, h⟩
    · rintro (h | ⟨f, hf, h⟩)
      · exact Or.inl (Or.inr (Or.inr h))
      · rcases List.mem_cons.1 hf with rfl | hf
        · rcases h with h | h
          · exact Or.inl (Or.inr (Or.inl h))
          · exact Or.inl (Or.inl h)
        · exact Or.inr ⟨f, hf, h⟩

theorem fillFields_nodup (header parts : List Str) (vs : List Str) :
    ∀ (i : Nat) (m : GoMap Str), m.keys.Nodup → (fillFields header parts i vs m).keys.Nodup := by
  induction vs with
  | nil => intro i m h; exact h
  | cons v vs ih =>
    intro i m h
    simp only [fillFields]
    exact ih _ _ (GoMap.nodup_keys_set _ _ _ (GoMap.nodup_keys_set _ _ _ h))

theorem fillFields_get?_other (header parts : List Str) (vs : List Str) (k : Str)
    (hk : ∀ f ∈ vs, k ≠ receiveName f ∧ k ≠ transmitName f) :
    ∀ (i : Nat) (m : GoMap Str), (fillFields header parts i vs m).get? k = m.get? k := by
  induction vs with
  | nil => intro i m; rfl
  | cons v vs ih =>
    intro i m
    simp only [fillFields]
    rw [ih (fun f hf => hk f (List.mem_cons_of_mem _ hf)), GoMap.get?_set, GoMap.get?_set]
    have h := hk v (List.mem_cons_self _ _)
    rw [if_neg (fun e => h.2 e.symm), if_neg (fun e => h.1 e.symm)]

theorem fillFields_get? (header parts : List Str) (vs : List Str) (hnd : vs.Nodup) :
    ∀ (i : Nat) (m : GoMap Str) (j : Nat) (f : Str), vs.get? j = some f →
      (fillFields header parts i vs m).get? (receiveName f) = some (parts.getD (i + j + 1) []) ∧
      (fillFields header parts i vs m).get? (transmitName f)
        = some (parts.getD (i + j + 1 + header.length) []) := by
  induction vs with
  | nil => intro i m j f h; simp at h
  | cons v vs ih =>
    intro i m j f h
    have hv : v ∉ vs := (List.nodup_cons.1 hnd).1
    have hnd' : vs.Nodup := (List.nodup_cons.1 hnd).2
    cases j with
    | zero =>
      simp only [List.get?_cons_zero, Option.some.injEq] at h
      subst h
      simp only [fillFields]
      have h1 : ∀ g ∈ vs, receiveName v ≠ receiveName g ∧ receiveName v ≠ transmitName g :=
        fun g hg => ⟨fun e => hv (receiveName_inj e ▸ hg), receiveName_ne_transmitName v g⟩
      have h2 : ∀ g ∈ vs, transmitName v ≠ receiveName g ∧ transmitName v ≠ transmitName g :=
        fun g hg => ⟨fun e => receiveName_ne_transmitName g v e.symm,
          fun e => hv (transmitName_inj e ▸ hg)⟩
      rw [fillFields_get?_other header parts vs _ h1,
        fillFields_get?_other header parts vs _ h2, GoMap.get?_set, GoMap.get?_set,
        GoMap.get?_set]
      have hne : ¬ transmitName v = receiveName v :=
        fun e => receiveName_ne_transmitName v v e.symm
      simp [hne]
    | succ j =>
      simp only [List.get?_cons_succ] at h
      simp only [fillFields]
      have e1 : i + (j + 1) + 1 = i + 1 + j + 1 := by omega
      rw [e1]
      exact ih hnd' (i + 1) _ j f h

end Linux

namespace Linux

theorem fillFields_len (header parts : List Str) :
    (fillFields header parts 0 header GoMap.empty).len = 2 * header.dedup.length := by
  have hnd : (fillFields header parts 0 header GoMap.empty).keys.Nodup :=
    fillFields_nodup header parts header 0 GoMap.empty List.nodup_nil
  have hnd2 : (header.dedup.map receiveName ++ header.dedup.map transmitName).Nodup := by
    refine List.Nodup.append ?_ ?_ ?_
    · exact List.Nodup.map (fun _ _ h => receiveName_inj h) (List.nodup_dedup header)
    · exact List.Nodup.map (fun _ _ h => transmitName_inj h) (List.nodup_dedup header)
    · intro k h1 h2
      obtain ⟨f, _, rfl⟩ := List.mem_map.1 h1
      obtain ⟨g, _, hg⟩ := List.mem_map.1 h2
      exact receiveName_ne_transmitName f g hg.symm
  have hperm : List.Perm (fillFields header parts 0 header GoMap.empty).keys
      (header.dedup.map receiveName ++ header.dedup.map transmitName) := by
    rw [List.perm_ext_iff_of_nodup hnd hnd2]
    intro k
    rw [fillFields_keys]
    simp only [GoMap.keys, GoMap.empty, List.map_nil, List.not_mem_nil, false_or,
      List.mem_append, List.mem_map, List.mem_dedup]
    constructor
    · rintro ⟨f, hf, h | h⟩
      · exact Or.inl ⟨f, hf, h.symm⟩
      · exact Or.inr ⟨f, hf, h.symm⟩
    · rintro (⟨f, hf, h⟩ | ⟨f, hf, h⟩)
      · exact ⟨f, hf, Or.inl h.symm⟩
      · exact ⟨f, hf, Or.inr h.symm⟩
  have hlen := hperm.length_eq
  simp only [GoMap.keys, List.length_map, List.length_append] at hlen
  simp only [GoMap.len]
  omega

end Linux

namespace Linux

theorem sepFree_cons (c : Char) (v : Str) :
    sepFree (c :: v) = true ↔ (c ≠ ' ' ∧ c ≠ ':') ∧ sepFree v = true := by
  simp [sepFree]

theorem fieldSepSplitAux_word_cons (b : Bool) (c : Char) (s : Str) (h1 : c ≠ ' ')
    (h2 : c ≠ ':') :
    fieldSepSplitAux b (c :: s) = consHead c (fieldSepSplitAux false s) := by
  simp [fieldSepSplitAux, h1, h2]

theorem fieldSepSplitAux_word_space (v rest : Str) (hv : sepFree v = true) :
    fieldSepSplitAux false (v ++ ' ' :: rest) = v :: fieldSepSplitAux true rest := by
  induction v with
  | nil => simp [fieldSepSplitAux]
  | cons c v ih =>
    obtain ⟨⟨h1, h2⟩, hv'⟩ := (sepFree_cons c v).1 hv
    rw [List.cons_append, fieldSepSplitAux_word_cons false c _ h1 h2, ih hv']
    rfl

theorem fieldSepSplitAux_word_colon (v rest : Str) (hv : sepFree v = true) :
    fieldSepSplitAux false (v ++ ':' :: rest) = v :: fieldSepSplitAux true rest := by
  induction v with
  | nil => simp [fieldSepSplitAux]
  | cons c v ih =>
    obtain ⟨⟨h1, h2⟩, hv'⟩ := (sepFree_cons c v).1 hv
    rw [List.cons_append, fieldSepSplitAux_word_cons false c _ h1 h2, ih hv']
    rfl

theorem fieldSepSplitAux_word (v : Str) (hv : sepFree v = true) :
    fieldSepSplitAux false v = [v] := by
  induction v with
  | nil => rfl
  | cons c v ih =>
    obtain ⟨⟨h1, h2⟩, hv'⟩ := (sepFree_cons c v).1 hv
    rw [fieldSepSplitAux_word_cons false c _ h1 h2, ih hv']
    rfl

theorem fieldSepSplitAux_true_word (v rest : Str) (hv : sepFree v = true) (hne : v ≠ []) :
    fieldSepSplitAux true (v ++ rest) = fieldSepSplitAux false (v ++ rest) := by
  cases v with
  | nil => exact absurd rfl hne
  | cons c v =>
    obtain ⟨⟨h1, h2⟩, _⟩ := (sepFree_cons c v).1 hv
    rw [List.cons_append, fieldSepSplitAux_word_cons true c _ h1 h2,
      fieldSepSplitAux_word_cons false c _ h1 h2]

theorem fieldSepSplitAux_spaces (g : Nat) (rest : Str) :
    fieldSepSplitAux true (List.replicate g ' ' ++ rest) = fieldSepSplitAux true rest := by
  induction g with
  | zero => rfl
  | succ g ih =>
    rw [List.replicate_succ, List.cons_append]
    simp only [fieldSepSplitAux, Bool.true_and, beq_self_eq_true, if_true]
    exact ih

theorem fieldSepSplitAux_valuesText :
    ∀ (vals : List (Nat × Str)), vals ≠ [] →
      (∀ p ∈ vals, p.2 ≠ [] ∧ sepFree p.2 = true) →
        fieldSepSplitAux true (valuesText vals) = vals.map Prod.snd := by
  intro vals
  induction vals with
  | nil => intro h; exact absurd rfl h
  | cons p vs ih =>
    intro _ hall
    obtain ⟨g, v⟩ := p
    obtain ⟨hne, hv⟩ := hall (g, v) (List.mem_cons_self _ _)
    cases vs with
    | nil =>
      simp only [valuesText, List.map_cons, List.map_nil]
      rw [fieldSepSplitAux_spaces]
      have := fieldSepSplitAux_true_word v [] hv hne
      rw [List.append_nil] at this
      rw [this, fieldSepSplitAux_word v hv]
    | cons q vs =>
      simp only [valuesText, List.map_cons]
      rw [List.append_assoc, fieldSepSplitAux_spaces,
        fieldSepSplitAux_true_word v _ hv hne, fieldSepSplitAux_word_space v _ hv,
        ih (List.cons_ne_nil _ _) (fun p hp => hall p (List.mem_cons_of_mem _ hp))]
      rfl

theorem stringsTrimLeft_rowText (k : Nat) (dev : Str) (vals : List (Nat × Str))
    (hdev : sepFree dev = true) :
    stringsTrimLeft (rowText k dev vals) = dev ++ ':' :: valuesText vals := by
  unfold rowText stringsTrimLeft
  induction k with
  | zero =>
    cases dev with
    | nil => simp [List.dropWhile]
    | cons c dev =>
      obtain ⟨⟨h1, _⟩, _⟩ := (sepFree_cons c dev).1 hdev
      have hb : (c == ' ') = false := by simpa using h1
      rw [List.replicate_zero, List.nil_append, List.cons_append, List.dropWhile_cons_of_neg]
      simp [hb]
  | succ k ih =>
    rw [List.replicate_succ, List.cons_append, List.cons_append]
    simp only [List.dropWhile, beq_self_eq_true]
    exact ih

theorem rowFields_rowText (k : Nat) (dev : Str) (vals : List (Nat × Str))
    (hdev : sepFree dev = true) (hne : vals ≠ [])
    (hvals : ∀ p ∈ vals, p.2 ≠ [] ∧ sepFree p.2 = true) :
    rowFields (rowText k dev vals) = dev :: vals.map Prod.snd := by
  unfold rowFields fieldSepSplit
  rw [stringsTrimLeft_rowText k dev vals hdev, fieldSepSplitAux_word_colon dev _ hdev,
    fieldSepSplitAux_valuesText vals hne hvals]

end Linux

namespace Linux

theorem getD_one_of_secondLine (r : Reader) (l : Str) (h : r.secondLine = some l) :
    r.lines.getD 1 [] = l := by
  unfold Reader.secondLine at h
  rw [List.getD_eq_getElem?_getD, ← List.get?_eq_getElem?, h]
  rfl

theorem getD_one_of_no_secondLine (r : Reader) (h : r.secondLine = none) :
    r.lines.getD 1 [] = [] := by
  unfold Reader.secondLine at h
  rw [List.getD_eq_getElem?_getD, ← List.get?_eq_getElem?, h]
  rfl

theorem invalidLine_ne_invalidHeaderLine (row t : Str) : invalidLine row ≠ invalidHeaderLine t := by
  intro h
  have h8 := congrArg (fun s => s.get? 8) h
  have e1 : (invalidLine row).get? 8 = some 'l' := rfl
  have e2 : (invalidHeaderLine t).get? 8 = some 'h' := rfl
  simp only [e1, e2] at h8
  exact absurd h8 (by decide)

theorem row_infix_invalidLine (row : Str) : row <:+: invalidLine row :=
  ⟨"Invalid line in ".toList ++ procNetDev ++ ": ".toList, [], by simp [invalidLine]⟩

theorem rowOk_iff (n : Nat) (text : Str) :
    rowOk n text = true ↔ (rowFields text).length = 2 * n + 1 := by
  simp [rowOk]

theorem rowOk_false_iff (n : Nat) (text : Str) :
    rowOk n text = false ↔ (rowFields text).length ≠ 2 * n + 1 := by
  simp [rowOk]

/-- Header validation when every line fits the buffer of the scanner: when the second line
of the stream is missing (fewer than two lines) or does not split into exactly three
segments on the bar, the call returns the header error and no result, whatever the data
rows are; when it splits into exactly three segments, every error the call returns is the
error of a data row and never the header error. -/
theorem header_validation_of_fit (r : Reader) (ignore : Str → Bool) (hfit : r.fits = true) :
    ((¬ ∃ l, r.secondLine = some l ∧ (stringsSplit '|' l).length = 3) →
        parseNetDevStats r ignore = .error (invalidHeaderLine (r.secondLine.getD []))) ∧
    (r.lines.length < 2 → r.secondLine = none) ∧
    ((∃ l, r.secondLine = some l ∧ (stringsSplit '|' l).length = 3) →
        ∀ e, parseNetDevStats r ignore = .error e →
          (∃ row ∈ r.dataRows, e = invalidLine row) ∧ ∀ t, e ≠ invalidHeaderLine t) := by
  refine ⟨?_, ?_, ?_⟩
  · intro h
    rw [parseNetDevStats_eq r ignore hfit]
    cases hs : r.secondLine with
    | none =>
      rw [getD_one_of_no_secondLine r hs]
      rfl
    | some l =>
      rw [getD_one_of_secondLine r l hs]
      have hl : (stringsSplit '|' l).length ≠ 3 := fun h3 => h ⟨l, hs, h3⟩
      simp [hl]
  · intro h
    unfold Reader.secondLine
    exact List.get?_eq_none.2 (by omega)
  · rintro ⟨l, hs, h3⟩ e he
    rw [parseNetDevStats_eq r ignore hfit, getD_one_of_secondLine r l hs] at he
    simp only [h3, ne_eq, not_true_eq_false, if_false] at he
    obtain ⟨pre, row, post, hsplit, _, _, rfl⟩ := rowLoop_error _ _ _ _ _ he
    refine ⟨⟨row, ?_, rfl⟩, fun t => invalidLine_ne_invalidHeaderLine row t⟩
    rw [hsplit]
    simp

/-- C3 (amended). Data-row validation: for an input whose lines all fit the buffer of the
scanner and whose header is valid with `N` receive field names, the call fails exactly
when some line after the second, its leading spaces removed, does not split into `2N+1`
fields on the separator of the code, a space or a colon followed by spaces (for any
exclusion matcher, so whether or not the device of the row is excluded); a failing call
returns an error and no result, and the error is the one of the first offending line,
whose message contains that line as read. -/
theorem c3_row_validation (r : Reader) (ignore : Str → Bool) (l a b c : Str)
    (hfit : r.fits = true)
    (hline : r.secondLine = some l) (hhdr : stringsSplit '|' l = [a, b, c]) :
    ((∃ e, parseNetDevStats r ignore = .error e) ↔
        ∃ row ∈ r.dataRows, (rowFields row).length ≠ 2 * (stringsFields b).length + 1) ∧
    (∀ e, parseNetDevStats r ignore = .error e →
        ∃ pre row post, r.dataRows = pre ++ row :: post ∧
          (∀ x ∈ pre, (rowFields x).length = 2 * (stringsFields b).length + 1) ∧
          (rowFields row).length ≠ 2 * (stringsFields b).length + 1 ∧
          e = invalidLine row ∧ row <:+: e) := by
  have hp : parseNetDevStats r ignore
      = rowLoop ignore (stringsFields b) r.dataRows GoMap.empty := by
    rw [parseNetDevStats_eq r ignore hfit, getD_one_of_secondLine r l hline, hhdr]
    rfl
  rw [hp]
  have herr : ∀ e, rowLoop ignore (stringsFields b) r.dataRows GoMap.empty = .error e →
      ∃ pre row post, r.dataRows = pre ++ row :: post ∧
        (∀ x ∈ pre, (rowFields x).length = 2 * (stringsFields b).length + 1) ∧
        (rowFields row).length ≠ 2 * (stringsFields b).length + 1 ∧
        e = invalidLine row ∧ row <:+: e := by
    intro e he
    obtain ⟨pre, row, post, hsplit, hpre, hrow, rfl⟩ := rowLoop_error _ _ _ _ _ he
    exact ⟨pre, row, post, hsplit, fun x hx => (rowOk_iff _ _).1 (hpre x hx),
      (rowOk_false_iff _ _).1 hrow, rfl, row_infix_invalidLine row⟩
  refine ⟨⟨?_, ?_⟩, herr⟩
  · rintro ⟨e, he⟩
    obtain ⟨pre, row, post, hsplit, _, hrow, _⟩ := herr e he
    exact ⟨row, by rw [hsplit]; simp, hrow⟩
  · rintro ⟨row, hmem, hrow⟩
    cases hres : rowLoop ignore (stringsFields b) r.dataRows GoMap.empty with
    | error e => exact ⟨e, rfl⟩
    | ok s =>
      have hall := (rowLoop_ok_iff ignore (stringsFields b) r.dataRows GoMap.empty).1 ⟨s, hres⟩
      exact absurd ((rowOk_iff _ _).1 (hall row hmem)) hrow

end Linux

namespace Linux

theorem parseNetDevStats_of_header (r : Reader) (ignore : Str → Bool) (l a b c : Str)
    (hfit : r.fits = true)
    (hline : r.secondLine = some l) (hhdr : stringsSplit '|' l = [a, b, c]) :
    parseNetDevStats r ignore = rowLoop ignore (stringsFields b) r.dataRows GoMap.empty := by
  rw [parseNetDevStats_eq r ignore hfit, getD_one_of_secondLine r l hline, hhdr]
  rfl

theorem parseNetDevStats_ok_rowLoop (r : Reader) (ignore : Str → Bool) (s : DeviceStats)
    (hfit : r.fits = true) (h : parseNetDevStats r ignore = .ok s) :
    ∃ header, rowLoop ignore header r.dataRows GoMap.empty = .ok s := by
  rw [parseNetDevStats_eq r ignore hfit] at h
  by_cases h3 : (stringsSplit '|' (r.lines.getD 1 [])).length = 3
  · rw [if_neg (not_not.2 h3)] at h
    exact ⟨_, h⟩
  · rw [if_pos h3] at h
    cases h

theorem parseNetDevStats_keys (r : Reader) (ignore : Str → Bool) (s : DeviceStats)
    (hfit : r.fits = true) (h : parseNetDevStats r ignore = .ok s) (d : Str) :
    d ∈ s.keys ↔ ∃ row ∈ r.dataRows, rowDevice row = d ∧ ignore d = false := by
  obtain ⟨header, hs⟩ := parseNetDevStats_ok_rowLoop r ignore s hfit h
  rw [rowLoop_keys ignore header r.dataRows GoMap.empty s hs d]
  simp [GoMap.keys, GoMap.empty]

/-- Device filtering when every line fits the buffer of the scanner: when the call
succeeds, the device keys of the result are exactly
the device names (first field of a data row after its leading spaces are removed) of the
data rows that the matcher does not match, so no key matches the matcher and no
non-matching device is missing; with a matcher that matches only the empty text every
non-empty device name is a key, and with a matcher of the texts starting with `eth` no
key starts with `eth`. -/
theorem device_filtering_of_fit (r : Reader) (ignore : Str → Bool) (stats : DeviceStats)
    (hfit : r.fits = true) (hok : parseNetDevStats r ignore = .ok stats) :
    (∀ d, d ∈ stats.keys ↔ ∃ row ∈ r.dataRows, rowDevice row = d ∧ ignore d = false) ∧
    (∀ d ∈ stats.keys, ignore d = false) ∧
    (∀ row ∈ r.dataRows, ignore (rowDevice row) = false → rowDevice row ∈ stats.keys) ∧
    ((∀ s, ignore s = true ↔ s = []) →
      ∀ row ∈ r.dataRows, rowDevice row ≠ [] → rowDevice row ∈ stats.keys) ∧
    ((∀ s, ignore s = true ↔ "eth".toList <+: s) →
      ∀ d ∈ stats.keys, ¬ "eth".toList <+: d) := by
  have hkeys := parseNetDevStats_keys r ignore stats hfit hok
  refine ⟨hkeys, ?_, ?_, ?_, ?_⟩
  · intro d hd
    obtain ⟨_, _, _, h⟩ := (hkeys d).1 hd
    exact h
  · intro row hrow hig
    exact (hkeys _).2 ⟨row, hrow, rfl, hig⟩
  · intro hm row hrow hne
    refine (hkeys _).2 ⟨row, hrow, rfl, ?_⟩
    cases hig : ignore (rowDevice row) with
    | false => rfl
    | true => exact absurd ((hm _).1 hig) hne
  · intro hm d hd hpre
    obtain ⟨_, _, _, h⟩ := (hkeys d).1 hd
    rw [(hm d).2 hpre] at h
    exact absurd h (by decide)

/-- An instance of `device_filtering_of_fit`: the stream with `eth0`, `lo` and `eth1` parsed with the matcher of the
names starting with `eth` succeeds, and its only key is `lo`. -/
theorem device_filtering_of_fit_instance :
    parseNetDevStats threeDeviceReader matchEthPrefix
        = .ok [("lo".toList, [("transmit_bytes".toList, "4".toList),
            ("receive_bytes".toList, "3".toList)])] ∧
    (∀ d, d ∈ GoMap.keys [("lo".toList, [("transmit_bytes".toList, "4".toList),
            ("receive_bytes".toList, "3".toList)])] ↔
      ∃ row ∈ threeDeviceReader.dataRows, rowDevice row = d ∧ matchEthPrefix d = false) :=
  ⟨rfl, (device_filtering_of_fit threeDeviceReader matchEthPrefix _ (by decide) rfl).1⟩

/-- Witness of C3: in the stream whose fourth line is `eth0: 1` under a one-field header,
the call fails with the error of that line. -/
theorem c3_row_validation_witness :
    (∃ e, parseNetDevStats shortRowReader matchNothing = .error e) ↔
      ∃ row ∈ shortRowReader.dataRows,
        (rowFields row).length ≠ 2 * (stringsFields "bytes".toList).length + 1 :=
  (c3_row_validation shortRowReader matchNothing "face |bytes|bytes".toList "face ".toList
    "bytes".toList "bytes".toList (by decide) (by decide) (by decide)).1

/-- An instance of `header_validation_of_fit`: the stream whose second line is
`face |bytes` fails with the header error. -/
theorem header_validation_of_fit_instance :
    parseNetDevStats badHeaderReader matchNothing
      = .error (invalidHeaderLine "face |bytes".toList) :=
  (header_validation_of_fit badHeaderReader matchNothing (by decide)).1 (by decide)

end Linux

namespace Linux

theorem rowFields_text (row : Row) (hdev : sepFree row.dev = true) (hne : row.vals ≠ [])
    (hvals : ∀ p ∈ row.vals, p.2 ≠ [] ∧ sepFree p.2 = true) :
    rowFields row.text = row.dev :: row.values :=
  rowFields_rowText row.lead row.dev row.vals hdev hne hvals

theorem dataRows_of_lines (r : Reader) (banner line2 : Str) (rows : List Str)
    (h : r.lines = banner :: line2 :: rows) :
    r.secondLine = some line2 ∧ r.dataRows = rows := by
  unfold Reader.secondLine Reader.dataRows
  rw [h]
  exact ⟨rfl, rfl⟩

/-- C1 (amended). Value mapping: take a stream whose lines all fit the buffer of the
scanner, whose second line splits into three segments on the bar, the middle one holding
`N ≥ 1` pairwise distinct field names, and whose data rows all have the form: leading spaces, a device name, a colon, and `2N` non-empty values
separated by spaces (name and values without space or colon). Then the call succeeds, and
for every row whose device is not excluded and not named again by a later row, the result
maps the device to `receive_<f_i> = v_i` and `transmit_<f_i> = v_(N+i)` for every header
field `f_i`, the values being the column texts. -/
theorem c1_value_mapping (r : Reader) (ignore : Str → Bool) (banner line2 a b c : Str)
    (rows : List Row)
    (hfit : r.fits = true)
    (hlines : r.lines = banner :: line2 :: rows.map Row.text)
    (hhdr : stringsSplit '|' line2 = [a, b, c])
    (hnd : (stringsFields b).Nodup)
    (hN : 0 < (stringsFields b).length)
    (hrows : ∀ row ∈ rows, sepFree row.dev = true ∧
      row.vals.length = 2 * (stringsFields b).length ∧
      ∀ p ∈ row.vals, p.2 ≠ [] ∧ sepFree p.2 = true) :
    ∃ stats, parseNetDevStats r ignore = .ok stats ∧
      ∀ pre row post, rows = pre ++ row :: post → ignore row.dev = false →
        (∀ x ∈ post, x.dev ≠ row.dev) →
        ∃ cs, stats.get? row.dev = some cs ∧
          ∀ i f, (stringsFields b).get? i = some f →
            ∃ v w, row.values.get? i = some v ∧
              row.values.get? ((stringsFields b).length + i) = some w ∧
              cs.get? (receiveName f) = some v ∧ cs.get? (transmitName f) = some w := by
  obtain ⟨hline, hdata⟩ := dataRows_of_lines r banner line2 _ hlines
  have hfields : ∀ row ∈ rows, rowFields row.text = row.dev :: row.values := by
    intro row hrow
    obtain ⟨hdev, hlen, hvals⟩ := hrows row hrow
    refine rowFields_text row hdev ?_ hvals
    intro hnil
    rw [hnil, List.length_nil] at hlen
    omega
  have hdevice : ∀ row ∈ rows, rowDevice row.text = row.dev := by
    intro row hrow
    unfold rowDevice
    rw [hfields row hrow]
    rfl
  have hp := parseNetDevStats_of_header r ignore line2 a b c hfit hline hhdr
  rw [hdata] at hp
  have hallok : ∀ t ∈ rows.map Row.text, rowOk (stringsFields b).length t = true := by
    intro t ht
    obtain ⟨row, hrow, rfl⟩ := List.mem_map.1 ht
    rw [rowOk_iff, hfields row hrow]
    have hlen := (hrows row hrow).2.1
    simp only [List.length_cons, Row.values, List.length_map, hlen]
  obtain ⟨stats, hstats⟩ :=
    (rowLoop_ok_iff ignore (stringsFields b) (rows.map Row.text) GoMap.empty).2 hallok
  refine ⟨stats, hp.trans hstats, ?_⟩
  intro pre row post hsplit hig hpost
  have hrow : row ∈ rows := by rw [hsplit]; simp
  have hpostmem : ∀ x ∈ post, x ∈ rows := by
    intro x hx
    rw [hsplit]
    simp [hx]
  have hmap : rows.map Row.text = pre.map Row.text ++ row.text :: post.map Row.text := by
    rw [hsplit]
    simp
  rw [hmap] at hstats
  have hig' : ignore (rowDevice row.text) = false := by rw [hdevice row hrow]; exact hig
  have hpost' : ∀ x ∈ post.map Row.text, rowDevice x ≠ rowDevice row.text := by
    intro x hx
    obtain ⟨y, hy, rfl⟩ := List.mem_map.1 hx
    rw [hdevice y (hpostmem y hy), hdevice row hrow]
    exact hpost y hy
  have hget := rowLoop_get?_last ignore (stringsFields b) row.text (post.map Row.text) hig'
    hpost' (pre.map Row.text) GoMap.empty stats hstats
  rw [hdevice row hrow, hfields row hrow] at hget
  refine ⟨_, hget, ?_⟩
  intro i f hi
  have hilt : i < (stringsFields b).length := by
    rcases Nat.lt_or_ge i (stringsFields b).length with h | h
    · exact h
    · rw [List.get?_eq_none.2 h] at hi
      cases hi
  have hlen : row.values.length = 2 * (stringsFields b).length := by
    simp only [Row.values, List.length_map]
    exact (hrows row hrow).2.1
  obtain ⟨h1, h2⟩ := fillFields_get? (stringsFields b) (row.dev :: row.values)
    (stringsFields b) hnd 0 GoMap.empty i f hi
  have hi1 : i < row.values.length := by omega
  have hi2 : (stringsFields b).length + i < row.values.length := by omega
  refine ⟨row.values.get ⟨i, hi1⟩, row.values.get ⟨(stringsFields b).length + i, hi2⟩,
    List.get?_eq_get hi1, List.get?_eq_get hi2, ?_, ?_⟩
  · rw [h1]
    have e : 0 + i + 1 = i + 1 := by omega
    rw [e, List.getD_cons_succ, List.getD_eq_getElem _ _ hi1]
    rfl
  · rw [h2]
    have e : 0 + i + 1 + (stringsFields b).length = ((stringsFields b).length + i) + 1 := by
      omega
    rw [e, List.getD_cons_succ, List.getD_eq_getElem _ _ hi2]
    rfl

end Linux

namespace Linux

/-- Witness of C1: the concrete scenario. The stream with the header
`face |bytes packets errs drop|bytes packets errs drop` and the row
`eth0: 1000 10 0 0 2000 20 0 0` gives the eight counters of `eth0`. -/
theorem c1_value_mapping_witness :
    parseNetDevStats scenarioReader matchEmptyOnly
        = .ok [("eth0".toList,
            [("transmit_drop".toList, "0".toList), ("receive_drop".toList, "0".toList),
             ("transmit_errs".toList, "0".toList), ("receive_errs".toList, "0".toList),
             ("transmit_packets".toList, "20".toList), ("receive_packets".toList, "10".toList),
             ("transmit_bytes".toList, "2000".toList), ("receive_bytes".toList, "1000".toList)])] ∧
    ∃ stats, parseNetDevStats scenarioReader matchEmptyOnly = .ok stats ∧
      ∀ pre row post, [scenarioRow] = pre ++ row :: post → matchEmptyOnly row.dev = false →
        (∀ x ∈ post, x.dev ≠ row.dev) →
        ∃ cs, stats.get? row.dev = some cs ∧
          ∀ i f, (stringsFields "bytes packets errs drop".toList).get? i = some f →
            ∃ v w, row.values.get? i = some v ∧
              row.values.get? ((stringsFields "bytes packets errs drop".toList).length + i)
                = some w ∧
              cs.get? (receiveName f) = some v ∧ cs.get? (transmitName f) = some w :=
  ⟨rfl, c1_value_mapping scenarioReader matchEmptyOnly
    "Inter-|   Receive                                                |  Transmit".toList
    "face |bytes packets errs drop|bytes packets errs drop".toList
    "face ".toList "bytes packets errs drop".toList "bytes packets errs drop".toList
    [scenarioRow] (by decide) (by decide) (by decide) (by decide) (by decide) (by decide)⟩

/-- Counterexample to C1 as stated. With a header that names no field (`N = 0`) the row
`eth0:` has the stated form with `2N = 0` values, and the call fails on it; with one field
name, the row `eth0:  5`, whose first of two values is the empty text, has the stated form
too, and the call fails on it. Both streams have short lines only. -/
theorem c1_value_mapping_counterexample :
    (noFieldReader.fits = true ∧ noFieldReader.lines
        = ["Inter-|".toList, "face ||".toList, Row.text ⟨0, "eth0".toList, []⟩] ∧
      stringsSplit '|' "face ||".toList = ["face ".toList, [], []] ∧
      stringsFields [] = [] ∧
      parseNetDevStats noFieldReader matchNothing = .error (invalidLine "eth0:".toList)) ∧
    (emptyValueReader.fits = true ∧ emptyValueReader.lines
        = ["Inter-|".toList, "face |bytes|bytes".toList,
            Row.text ⟨0, "eth0".toList, [(1, []), (0, "5".toList)]⟩] ∧
      stringsSplit '|' "face |bytes|bytes".toList
        = ["face ".toList, "bytes".toList, "bytes".toList] ∧
      stringsFields "bytes".toList = ["bytes".toList] ∧
      parseNetDevStats emptyValueReader matchNothing
        = .error (invalidLine "eth0:  5".toList)) :=
  ⟨⟨by decide, by decide, by decide, by decide, rfl⟩,
    ⟨by decide, by decide, by decide, by decide, rfl⟩⟩

theorem counterSet_shape (r : Reader) (ignore : Str → Bool) (l a b c : Str)
    (hfit : r.fits = true) (hline : r.secondLine = some l) (hhdr : stringsSplit '|' l = [a, b, c])
    (stats : DeviceStats) (hok : parseNetDevStats r ignore = .ok stats)
    (d : Str) (cs : GoMap Str) (hcs : stats.get? d = some cs) :
    (∀ k, k ∈ cs.keys ↔ ∃ f ∈ stringsFields b, k = receiveName f ∨ k = transmitName f) ∧
    cs.keys.Nodup ∧ cs.len = 2 * (stringsFields b).dedup.length := by
  rw [parseNetDevStats_of_header r ignore l a b c hfit hline hhdr] at hok
  rcases rowLoop_get?_source ignore (stringsFields b) r.dataRows GoMap.empty stats hok d cs hcs
    with h | ⟨row, _, _, _, rfl⟩
  · cases h
  · refine ⟨?_, fillFields_nodup _ _ _ 0 GoMap.empty List.nodup_nil, fillFields_len _ _⟩
    intro k
    rw [fillFields_keys]
    simp [GoMap.keys, GoMap.empty]

/-- C6 (amended). Counter-name set: for a well-formed input (every line fits the buffer of
the scanner, valid header with the field names `fs`, every data row with `2·|fs|+1`
fields) the call succeeds, and the counter set
of every device of the result has the key set `{receive_<f>, transmit_<f> : f in fs}`
without repeated key; its number of entries is twice the number of distinct field names,
which is `2N` when the `N` names are pairwise distinct. Hence the devices of one result,
and of the results of two calls on inputs with the same header line (and lines that fit),
have the same set of counter names. -/
theorem c6_counter_names (r : Reader) (ignore : Str → Bool) (l a b c : Str)
    (hfit : r.fits = true) (hline : r.secondLine = some l) (hhdr : stringsSplit '|' l = [a, b, c])
    (hrows : ∀ row ∈ r.dataRows, (rowFields row).length = 2 * (stringsFields b).length + 1) :
    ∃ stats, parseNetDevStats r ignore = .ok stats ∧
      (∀ d cs, stats.get? d = some cs →
        (∀ k, k ∈ cs.keys ↔ ∃ f ∈ stringsFields b, k = receiveName f ∨ k = transmitName f) ∧
        cs.keys.Nodup ∧ cs.len = 2 * (stringsFields b).dedup.length ∧
        ((stringsFields b).Nodup → cs.len = 2 * (stringsFields b).length)) ∧
      (∀ (r2 : Reader) (ignore2 : Str → Bool) (stats2 : DeviceStats),
        r2.fits = true → r2.secondLine = some l → parseNetDevStats r2 ignore2 = .ok stats2 →
        ∀ d cs d2 cs2, stats.get? d = some cs → stats2.get? d2 = some cs2 →
          ∀ k, k ∈ cs.keys ↔ k ∈ cs2.keys) := by
  have hp := parseNetDevStats_of_header r ignore l a b c hfit hline hhdr
  obtain ⟨stats, hstats⟩ :=
    (rowLoop_ok_iff ignore (stringsFields b) r.dataRows GoMap.empty).2
      (fun row hrow => (rowOk_iff _ _).2 (hrows row hrow))
  have hok : parseNetDevStats r ignore = .ok stats := hp.trans hstats
  refine ⟨stats, hok, ?_, ?_⟩
  · intro d cs hcs
    obtain ⟨h1, h2, h3⟩ :=
      counterSet_shape r ignore l a b c hfit hline hhdr stats hok d cs hcs
    refine ⟨h1, h2, h3, ?_⟩
    intro hnd
    rw [h3, List.dedup_eq_self.2 hnd]
  · intro r2 ignore2 stats2 hfit2 hline2 hok2 d cs d2 cs2 hcs hcs2 k
    rw [(counterSet_shape r ignore l a b c hfit hline hhdr stats hok d cs hcs).1 k,
      (counterSet_shape r2 ignore2 l a b c hfit2 hline2 hhdr stats2 hok2 d2 cs2 hcs2).1 k]

/-- Witness of C6: the concrete scenario is well-formed, so its result has the stated
shape. -/
theorem c6_counter_names_witness :
    ∃ stats, parseNetDevStats scenarioReader matchEmptyOnly = .ok stats ∧
      (∀ d cs, stats.get? d = some cs →
        (∀ k, k ∈ cs.keys ↔ ∃ f ∈ stringsFields "bytes packets errs drop".toList,
          k = receiveName f ∨ k = transmitName f) ∧
        cs.keys.Nodup ∧ cs.len = 2 * (stringsFields "bytes packets errs drop".toList).dedup.length ∧
        ((stringsFields "bytes packets errs drop".toList).Nodup →
          cs.len = 2 * (stringsFields "bytes packets errs drop".toList).length)) ∧
      (∀ (r2 : Reader) (ignore2 : Str → Bool) (stats2 : DeviceStats),
        r2.fits = true →
        r2.secondLine = some "face |bytes packets errs drop|bytes packets errs drop".toList →
        parseNetDevStats r2 ignore2 = .ok stats2 →
        ∀ d cs d2 cs2, stats.get? d = some cs → stats2.get? d2 = some cs2 →
          ∀ k, k ∈ cs.keys ↔ k ∈ cs2.keys) :=
  c6_counter_names scenarioReader matchEmptyOnly
    "face |bytes packets errs drop|bytes packets errs drop".toList
    "face ".toList "bytes packets errs drop".toList "bytes packets errs drop".toList
    (by decide) (by decide) (by decide) (by decide)

/-- Counterexample to C6 as stated. The header `face |bytes bytes|bytes bytes` has `N = 2`
field names and the row `eth0: 1 2 3 4` has `2N+1 = 5` fields, yet the counter set of
`eth0` has two entries, not four. -/
theorem c6_counter_names_counterexample :
    repeatedFieldReader.fits = true ∧
    repeatedFieldReader.secondLine = some "face |bytes bytes|bytes bytes".toList ∧
    stringsSplit '|' "face |bytes bytes|bytes bytes".toList
      = ["face ".toList, "bytes bytes".toList, "bytes bytes".toList] ∧
    (stringsFields "bytes bytes".toList).length = 2 ∧
    (∀ row ∈ repeatedFieldReader.dataRows, (rowFields row).length = 2 * 2 + 1) ∧
    parseNetDevStats repeatedFieldReader matchNothing
      = .ok [("eth0".toList, [("transmit_bytes".toList, "4".toList),
          ("receive_bytes".toList, "2".toList)])] ∧
    GoMap.len [("transmit_bytes".toList, "4".toList), ("receive_bytes".toList, "2".toList)]
      ≠ 2 * 2 :=
  ⟨by decide, by decide, by decide, by decide, by decide, rfl, by decide⟩

end Linux

namespace Linux

/-- C9 (amended). Default configuration: the matcher built from the default option value
`^$` matches the empty name and no other, so for every well-formed input (lines that fit
the buffer of the scanner, valid header, data rows with the right number of fields) parsed
with it the call succeeds and every non-empty device name of a data row is a key of the
result. -/
theorem c9_default_matcher (r : Reader) (l a b c : Str)
    (hfit : r.fits = true) (hline : r.secondLine = some l) (hhdr : stringsSplit '|' l = [a, b, c])
    (hrows : ∀ row ∈ r.dataRows, (rowFields row).length = 2 * (stringsFields b).length + 1) :
    (∀ s, NewNetDevCollector.ignoredDevicesPattern s = true ↔ s = []) ∧
    ∃ stats, parseNetDevStats r NewNetDevCollector.ignoredDevicesPattern = .ok stats ∧
      ∀ row ∈ r.dataRows, rowDevice row ≠ [] → rowDevice row ∈ stats.keys := by
  have hm : ∀ s, NewNetDevCollector.ignoredDevicesPattern s = true ↔ s = [] := by
    intro s
    simp [NewNetDevCollector, matchEmptyOnly]
  refine ⟨hm, ?_⟩
  have hp := parseNetDevStats_of_header r NewNetDevCollector.ignoredDevicesPattern l a b c
    hfit hline hhdr
  obtain ⟨stats, hstats⟩ :=
    (rowLoop_ok_iff NewNetDevCollector.ignoredDevicesPattern (stringsFields b) r.dataRows
      GoMap.empty).2 (fun row hrow => (rowOk_iff _ _).2 (hrows row hrow))
  have hok := hp.trans hstats
  refine ⟨stats, hok, ?_⟩
  intro row hrow hne
  refine (parseNetDevStats_keys r _ stats hfit hok _).2 ⟨row, hrow, rfl, ?_⟩
  cases hig : NewNetDevCollector.ignoredDevicesPattern (rowDevice row) with
  | false => rfl
  | true => exact absurd ((hm _).1 hig) hne

/-- Witness of C9: the stream with `eth0`, `lo` and `eth1` is well-formed, and parsed with
the default matcher it keeps every non-empty device name. -/
theorem c9_default_matcher_witness :
    (∀ s, NewNetDevCollector.ignoredDevicesPattern s = true ↔ s = []) ∧
    ∃ stats, parseNetDevStats threeDeviceReader NewNetDevCollector.ignoredDevicesPattern
        = .ok stats ∧
      ∀ row ∈ threeDeviceReader.dataRows, rowDevice row ≠ [] → rowDevice row ∈ stats.keys :=
  c9_default_matcher threeDeviceReader "face |bytes|bytes".toList "face ".toList
    "bytes".toList "bytes".toList (by decide) (by decide) (by decide) (by decide)

/-- Counterexample to C9 as stated. The stream (of short lines) with the rows `: 1 2` and `lo: 3 4` is
well-formed; the first field of its first row is the empty name, which the default pattern
matches, so that device is not a key of the result. -/
theorem c9_default_matcher_counterexample :
    emptyNameReader.fits = true ∧
    emptyNameReader.secondLine = some "face |bytes|bytes".toList ∧
    stringsSplit '|' "face |bytes|bytes".toList
      = ["face ".toList, "bytes".toList, "bytes".toList] ∧
    (∀ row ∈ emptyNameReader.dataRows,
      (rowFields row).length = 2 * (stringsFields "bytes".toList).length + 1) ∧
    ": 1 2".toList ∈ emptyNameReader.dataRows ∧
    rowDevice ": 1 2".toList = [] ∧
    NewNetDevCollector.ignoredDevicesPattern [] = true ∧
    parseNetDevStats emptyNameReader NewNetDevCollector.ignoredDevicesPattern
      = .ok [("lo".toList, [("transmit_bytes".toList, "4".toList),
          ("receive_bytes".toList, "3".toList)])] ∧
    rowDevice ": 1 2".toList ∉ GoMap.keys [("lo".toList,
      [("transmit_bytes".toList, "4".toList), ("receive_bytes".toList, "3".toList)])] :=
  ⟨by decide, by decide, by decide, by decide, by decide, by decide, by decide, rfl,
    by decide⟩

/-- C5, the code at the failing input. The reader breaks off with a read error after the
row of `eth0`; `parseNetDevStats` and `getNetDevStats` return success with the devices read
before the failure, although the scanner holds the error. In general the outcome of the
call does not depend on whether the reading ended with an error. -/
theorem c5_read_failure_unreported :
    (NewScanner failingReader).Err = true ∧
    parseNetDevStats failingReader matchNothing
      = .ok [("eth0".toList, [("transmit_bytes".toList, "2".toList),
          ("receive_bytes".toList, "1".toList)])] ∧
    getNetDevStats (.ok failingReader) matchNothing
      = .ok [("eth0".toList, [("transmit_bytes".toList, "2".toList),
          ("receive_bytes".toList, "1".toList)])] ∧
    ∀ (data : Str) (ignore : Str → Bool),
      parseNetDevStats ⟨data, true⟩ ignore = parseNetDevStats ⟨data, false⟩ ignore :=
  ⟨rfl, rfl, rfl, fun data ignore => by
    unfold parseNetDevStats NewScanner
    rcases scanOutcomes data with _ | ⟨⟨b1, t1⟩, _ | ⟨⟨b2, t2⟩, rest⟩⟩ <;> rfl⟩

end Linux

namespace Linux

/-! ### Lines that do not fit the buffer of the scanner -/

theorem scanOutcomesAux_run_succ (c : Char) (hn : c ≠ '\n') (hr : c ≠ '\r')
    (hs : c.utf8Size = 1) (rest : Str) :
    ∀ (j : Nat) (cur : Str) (n k : Nat), n + (j + 1) = maxScanTokenSize → j + 1 ≤ k →
      scanOutcomesAux cur n (List.replicate k c ++ rest)
        = [(false, []), (true, cur.reverse ++ List.replicate (j + 1) c)] := by
  intro j
  induction j with
  | zero =>
    intro cur n k hlim hk
    obtain ⟨k, rfl⟩ : ∃ k0, k = k0 + 1 := ⟨k - 1, by omega⟩
    have h1 : ¬ n + 1 < maxScanTokenSize := by omega
    have h2 : n + 1 = maxScanTokenSize := by omega
    rw [List.replicate_succ, List.cons_append]
    simp only [scanOutcomesAux, hn, if_false, hs, h1, h2, if_true]
    have hcr : (match c :: cur with | '\r' :: t => t | _ => c :: cur) = c :: cur := by
      split
      · rename_i heq
        exact absurd (List.cons.inj heq).1 hr
      · rfl
    rw [hcr]
    simp
  | succ j ih =>
    intro cur n k hlim hk
    obtain ⟨k, rfl⟩ : ∃ k0, k = k0 + 1 := ⟨k - 1, by omega⟩
    have h1 : n + 1 < maxScanTokenSize := by omega
    rw [List.replicate_succ, List.cons_append]
    simp only [scanOutcomesAux, hn, if_false, hs, h1, if_true]
    rw [ih (c :: cur) (n + 1) k (by omega) (by omega)]
    simp [List.replicate_succ]

theorem scanOutcomesAux_run (c : Char) (hn : c ≠ '\n') (hr : c ≠ '\r') (hs : c.utf8Size = 1)
    (rest cur : Str) (n k m : Nat) (hm : 0 < m) (hlim : n + m = maxScanTokenSize)
    (hk : m ≤ k) :
    scanOutcomesAux cur n (List.replicate k c ++ rest)
      = [(false, []), (true, cur.reverse ++ List.replicate m c)] := by
  obtain ⟨j, rfl⟩ : ∃ j, m = j + 1 := ⟨m - 1, by omega⟩
  exact scanOutcomesAux_run_succ c hn hr hs rest j cur n k hlim hk

theorem scanLinesAux_run (c : Char) (hn : c ≠ '\n') (rest : Str) :
    ∀ (k : Nat) (cur : Str),
      scanLinesAux cur (List.replicate k c ++ rest)
        = scanLinesAux (List.replicate k c ++ cur) rest := by
  intro k
  induction k with
  | zero => intro cur; rfl
  | succ k ih =>
    intro cur
    rw [List.replicate_succ, List.cons_append]
    simp only [scanLinesAux, hn, if_false]
    rw [ih]
    congr 1
    rw [← List.replicate_succ, List.replicate_succ']
    simp

theorem stringsSplit_run (sep c : Char) (h : c ≠ sep) (k : Nat) :
    stringsSplit sep (List.replicate k c) = [List.replicate k c] := by
  induction k with
  | zero => rfl
  | succ k ih =>
    rw [List.replicate_succ]
    simp only [stringsSplit, h, if_false, ih]
    rfl

theorem scanOutcomes_longBanner :
    scanOutcomes longBannerReader.data
      = [(false, []), (true, List.replicate 65536 'x')] := by
  have h := scanOutcomesAux_run 'x' (by decide) (by decide) (by decide)
    "\nface |bytes|bytes\neth0: 1 2\n".toList [] 0 70000 65536
    (by decide) (by decide) (by decide)
  rw [List.reverse_nil, List.nil_append] at h
  exact h

theorem scanOutcomes_longBannerGarbage :
    scanOutcomes longBannerGarbageReader.data
      = [(false, []), (true, "a|b|".toList ++ List.replicate 65532 'x')] := by
  have h := scanOutcomesAux_run 'x' (by decide) (by decide) (by decide)
    "\ngarbage\neth0: 1 2\n".toList "|b|a".toList 4 70000 65532
    (by decide) (by decide) (by decide)
  have hrev : "|b|a".toList.reverse = "a|b|".toList := rfl
  rw [hrev] at h
  have hpre : ∀ rest : Str, scanOutcomes ("a|b|".toList ++ rest)
      = scanOutcomesAux "|b|a".toList 4 rest := fun _ => rfl
  unfold longBannerGarbageReader
  rw [hpre]
  exact h

theorem scanOutcomes_longRow :
    scanOutcomes longRowReader.data
      = [(true, "Inter-|".toList), (true, "face |bytes|bytes".toList),
          (true, "eth0: 1 2".toList), (false, []),
          (true, "eth1: ".toList ++ List.replicate 65530 '1')] := by
  have h := scanOutcomesAux_run '1' (by decide) (by decide) (by decide)
    " 2\neth2: 3 4\n".toList " :1hte".toList 6 70000 65530 (by decide) (by decide) (by decide)
  have hrev : " :1hte".toList.reverse = "eth1: ".toList := rfl
  rw [hrev] at h
  have hpre : ∀ rest : Str,
      scanOutcomes ("Inter-|\nface |bytes|bytes\neth0: 1 2\neth1: ".toList ++ rest)
        = (true, "Inter-|".toList) :: (true, "face |bytes|bytes".toList) ::
          (true, "eth0: 1 2".toList) :: scanOutcomesAux " :1hte".toList 6 rest :=
    fun _ => rfl
  unfold longRowReader
  rw [hpre, h]

/-- C4, the code at the failing inputs. The first line of both streams, 70000 times `x`
after nothing or after `a|b|`, is too long for the scanner: the first `Scan()` fails, and
the second one, whose result is ignored as well, returns the first 65536 bytes of line 1,
which the code takes for the header. So the stream whose second line is the valid header
`face |bytes|bytes` fails with the header error (on 65536 times `x`), and the stream whose
second line is `garbage` succeeds, with an empty result. -/
theorem c4_long_first_line_read_as_header :
    (longBannerReader.secondLine = some "face |bytes|bytes".toList ∧
      (stringsSplit '|' "face |bytes|bytes".toList).length = 3 ∧
      parseNetDevStats longBannerReader matchNothing
        = .error (invalidHeaderLine (List.replicate 65536 'x'))) ∧
    ((∃ banner, longBannerGarbageReader.lines
        = [banner, "garbage".toList, "eth0: 1 2".toList]) ∧
      (stringsSplit '|' "garbage".toList).length ≠ 3 ∧
      parseNetDevStats longBannerGarbageReader matchNothing = .ok []) := by
  refine ⟨⟨?_, by decide, ?_⟩, ⟨?_, by decide, ?_⟩⟩
  · unfold Reader.secondLine Reader.lines scanLines longBannerReader
    rw [scanLinesAux_run 'x' (by decide)]
    have h1 : ∀ cur : Str, ∃ banner,
        scanLinesAux cur "\nface |bytes|bytes\neth0: 1 2\n".toList
          = [banner, "face |bytes|bytes".toList, "eth0: 1 2".toList] := fun _ => ⟨_, rfl⟩
    obtain ⟨banner, hb⟩ := h1 (List.replicate 70000 'x' ++ [])
    rw [hb]
    rfl
  · unfold parseNetDevStats NewScanner
    rw [scanOutcomes_longBanner]
    have hsplit := stringsSplit_run '|' 'x' (by decide) 65536
    generalize List.replicate 65536 'x' = tok at hsplit ⊢
    simp only [Scanner.Scan, Scanner.Text, hsplit]
    rfl
  · unfold Reader.lines scanLines longBannerGarbageReader
    have h1 : ∀ rest : Str, scanLinesAux [] ("a|b|".toList ++ rest)
        = scanLinesAux "|b|a".toList rest := fun _ => rfl
    rw [h1, scanLinesAux_run 'x' (by decide)]
    have h2 : ∀ cur : Str, ∃ banner,
        scanLinesAux cur "\ngarbage\neth0: 1 2\n".toList
          = [banner, "garbage".toList, "eth0: 1 2".toList] := fun _ => ⟨_, rfl⟩
    exact h2 _
  · unfold parseNetDevStats NewScanner
    rw [scanOutcomes_longBannerGarbage]
    have hsplit : stringsSplit '|' ("a|b|".toList ++ List.replicate 65532 'x')
        = ["a".toList, "b".toList, List.replicate 65532 'x'] := by
      have h1 : ∀ rest : Str, stringsSplit '|' ("a|b|".toList ++ rest)
          = "a".toList :: "b".toList :: stringsSplit '|' rest := fun _ => rfl
      rw [h1, stringsSplit_run '|' 'x' (by decide)]
    generalize List.replicate 65532 'x' = tok at hsplit ⊢
    simp only [Scanner.Scan, Scanner.Text, hsplit]
    rfl

/-- C2, the code at the failing input. The stream has the rows of `eth0`, `eth1` and
`eth2`, none excluded; the row of `eth1` is too long for the scanner, the loop ends on the
failed `Scan()`, and the call succeeds with `eth0` alone: the device `eth2` (like `eth1`)
is a non-matching device of the input that is missing from the result. -/
theorem c2_long_row_drops_devices :
    parseNetDevStats longRowReader matchNothing
      = .ok [("eth0".toList, [("transmit_bytes".toList, "2".toList),
          ("receive_bytes".toList, "1".toList)])] ∧
    "eth2: 3 4".toList ∈ longRowReader.dataRows ∧
    rowDevice "eth2: 3 4".toList = "eth2".toList ∧
    matchNothing "eth2".toList = false ∧
    "eth2".toList ∉ GoMap.keys [("eth0".toList, [("transmit_bytes".toList, "2".toList),
          ("receive_bytes".toList, "1".toList)])] := by
  refine ⟨?_, ?_, by decide, rfl, by decide⟩
  · unfold parseNetDevStats NewScanner
    rw [scanOutcomes_longRow]
    generalize List.replicate 65530 '1' = tok
    rfl
  · unfold Reader.dataRows Reader.lines scanLines longRowReader
    have h1 : ∀ rest : Str,
        scanLinesAux [] ("Inter-|\nface |bytes|bytes\neth0: 1 2\neth1: ".toList ++ rest)
          = "Inter-|".toList :: "face |bytes|bytes".toList :: "eth0: 1 2".toList
            :: scanLinesAux " :1hte".toList rest := fun _ => rfl
    have h2 : ∀ cur : Str, scanLinesAux cur " 2\neth2: 3 4\n".toList
        = ('2' :: ' ' :: cur).reverse :: ["eth2: 3 4".toList] := fun _ => rfl
    rw [h1, scanLinesAux_run '1' (by decide), h2]
    exact List.mem_cons_of_mem _ (List.mem_cons_of_mem _ (List.mem_cons_self _ _))

/-- Counterexample to C3 as stated. Under the one-field header the row `eth0: 1<TAB>2` has
`2N+1 = 3` fields when split on whitespace and colon, so the claim lets the call succeed;
the code separates on the space and the colon only, finds two fields, and fails on the
row. -/
theorem c3_row_validation_counterexample :
    tabRowReader.fits = true ∧
    tabRowReader.secondLine = some "face |bytes|bytes".toList ∧
    stringsSplit '|' "face |bytes|bytes".toList
      = ["face ".toList, "bytes".toList, "bytes".toList] ∧
    (stringsFields "bytes".toList).length = 1 ∧
    tabRowReader.dataRows = ["eth0: 1\t2".toList] ∧
    whitespaceColonFields (stringsTrimLeft "eth0: 1\t2".toList)
      = ["eth0".toList, "1".toList, "2".toList] ∧
    (whitespaceColonFields (stringsTrimLeft "eth0: 1\t2".toList)).length = 2 * 1 + 1 ∧
    rowFields "eth0: 1\t2".toList = ["eth0".toList, "1\t2".toList] ∧
    parseNetDevStats tabRowReader matchNothing = .error (invalidLine "eth0: 1\t2".toList) :=
  ⟨by decide, by decide, by decide, by decide, by decide, by decide, by decide, by decide,
    rfl⟩

end Linux

/-! ## The native walker -/

namespace FreeBSD

theorem walk_keys : ∀ (recs : List ifaddrs) (netDev : DeviceStats) (d : Str),
    d ∈ (walk recs netDev).keys ↔
      d ∈ netDev.keys ∨ ∃ r ∈ recs, r.sa_family = AF_LINK ∧ r.ifa_name = d := by
  intro recs
  induction recs with
  | nil => intro netDev d; simp [walk]
  | cons ifa next ih =>
    intro netDev d
    by_cases hl : ifa.sa_family = AF_LINK
    · simp only [walk, hl, if_true]
      rw [ih, GoMap.mem_keys_set]
      constructor
      · rintro ((h | h) | ⟨r, hr, h⟩)
        · exact Or.inr ⟨ifa, List.mem_cons_self _ _, hl, h.symm⟩
        · exact Or.inl h
        · exact Or.inr ⟨r, List.mem_cons_of_mem _ hr, h⟩
      · rintro (h | ⟨r, hr, h1, h2⟩)
        · exact Or.inl (Or.inr h)
        · rcases List.mem_cons.1 hr with rfl | hr
          · exact Or.inl (Or.inl h2.symm)
          · exact Or.inr ⟨r, hr, h1, h2⟩
    · simp only [walk, hl, if_false]
      rw [ih]
      constructor
      · rintro (h | ⟨r, hr, h⟩)
        · exact Or.inl h
        · exact Or.inr ⟨r, List.mem_cons_of_mem _ hr, h⟩
      · rintro (h | ⟨r, hr, h1, h2⟩)
        · exact Or.inl h
        · rcases List.mem_cons.1 hr with rfl | hr
          · exact absurd h1 hl
          · exact Or.inr ⟨r, hr, h1, h2⟩

theorem walk_nodup : ∀ (recs : List ifaddrs) (netDev : DeviceStats),
    netDev.keys.Nodup → (walk recs netDev).keys.Nodup := by
  intro recs
  induction recs with
  | nil => intro netDev h; exact h
  | cons ifa next ih =>
    intro netDev h
    by_cases hl : ifa.sa_family = AF_LINK
    · simp only [walk, hl, if_true]
      exact ih _ (GoMap.nodup_keys_set _ _ _ h)
    · simp only [walk, hl, if_false]
      exact ih _ h

theorem walk_filter : ∀ (recs : List ifaddrs) (netDev : DeviceStats),
    walk (recs.filter (fun r => decide (r.sa_family = AF_LINK))) netDev = walk recs netDev := by
  intro recs
  induction recs with
  | nil => intro netDev; rfl
  | cons ifa next ih =>
    intro netDev
    by_cases hl : ifa.sa_family = AF_LINK
    · rw [List.filter_cons_of_pos (by simpa using hl)]
      simp only [walk, hl, if_true]
      exact ih _
    · rw [List.filter_cons_of_neg (by simpa using hl)]
      simp only [walk, hl, if_false]
      exact ih _

theorem walk_get?_source : ∀ (recs : List ifaddrs) (netDev : DeviceStats) (d : Str)
    (cs : GoMap Str), (walk recs netDev).get? d = some cs →
      netDev.get? d = some cs ∨
        ∃ r ∈ recs, r.sa_family = AF_LINK ∧ r.ifa_name = d ∧ cs = devStatsOf r.ifa_data := by
  intro recs
  induction recs with
  | nil => intro netDev d cs h; exact Or.inl h
  | cons ifa next ih =>
    intro netDev d cs h
    by_cases hl : ifa.sa_family = AF_LINK
    · simp only [walk, hl, if_true] at h
      rcases ih _ d cs h with h1 | ⟨r, hr, h2⟩
      · rw [GoMap.get?_set] at h1
        by_cases hd : ifa.ifa_name = d
        · rw [if_pos hd] at h1
          exact Or.inr ⟨ifa, List.mem_cons_self _ _, hl, hd, (Option.some.inj h1).symm⟩
        · rw [if_neg hd] at h1
          exact Or.inl h1
      · exact Or.inr ⟨r, List.mem_cons_of_mem _ hr, h2⟩
    · simp only [walk, hl, if_false] at h
      rcases ih _ d cs h with h1 | ⟨r, hr, h2⟩
      · exact Or.inl h1
      · exact Or.inr ⟨r, List.mem_cons_of_mem _ hr, h2⟩

theorem walk_get?_untouched (d : Str) : ∀ (recs : List ifaddrs) (netDev : DeviceStats),
    (∀ x ∈ recs, x.sa_family = AF_LINK → x.ifa_name ≠ d) →
      (walk recs netDev).get? d = netDev.get? d := by
  intro recs
  induction recs with
  | nil => intro netDev _; rfl
  | cons ifa next ih =>
    intro netDev h
    have hnext : ∀ x ∈ next, x.sa_family = AF_LINK → x.ifa_name ≠ d :=
      fun x hx => h x (List.mem_cons_of_mem _ hx)
    by_cases hl : ifa.sa_family = AF_LINK
    · simp only [walk, hl, if_true]
      rw [ih _ hnext, GoMap.get?_set, if_neg (h ifa (List.mem_cons_self _ _) hl)]
    · simp only [walk, hl, if_false]
      exact ih _ hnext

theorem walk_append : ∀ (pre rest : List ifaddrs) (netDev : DeviceStats),
    walk (pre ++ rest) netDev = walk rest (walk pre netDev) := by
  intro pre
  induction pre with
  | nil => intro rest netDev; rfl
  | cons ifa next ih =>
    intro rest netDev
    by_cases hl : ifa.sa_family = AF_LINK
    · simp only [List.cons_append, walk, hl, if_true]
      exact ih _ _
    · simp only [List.cons_append, walk, hl, if_false]
      exact ih _ _

theorem devStatsOf_keys (data : if_data) :
    (devStatsOf data).keys = counterNames.reverse := rfl

end FreeBSD

namespace FreeBSD

theorem devStatsOf_len (data : if_data) : (devStatsOf data).len = 10 := rfl

theorem devStatsOf_nodup (data : if_data) : (devStatsOf data).keys.Nodup := by
  rw [devStatsOf_keys]
  decide

theorem devStatsOf_get? (data : if_data) :
    (devStatsOf data).get? "receive_packets".toList
      = some (strconvItoa (toInt data.ifi_ipackets)) ∧
    (devStatsOf data).get? "transmit_packets".toList
      = some (strconvItoa (toInt data.ifi_opackets)) ∧
    (devStatsOf data).get? "receive_errs".toList
      = some (strconvItoa (toInt data.ifi_ierrors)) ∧
    (devStatsOf data).get? "transmit_errs".toList
      = some (strconvItoa (toInt data.ifi_oerrors)) ∧
    (devStatsOf data).get? "receive_bytes".toList
      = some (strconvItoa (toInt data.ifi_ibytes)) ∧
    (devStatsOf data).get? "transmit_bytes".toList
      = some (strconvItoa (toInt data.ifi_obytes)) ∧
    (devStatsOf data).get? "receive_multicast".toList
      = some (strconvItoa (toInt data.ifi_imcasts)) ∧
    (devStatsOf data).get? "transmit_multicast".toList
      = some (strconvItoa (toInt data.ifi_omcasts)) ∧
    (devStatsOf data).get? "receive_drop".toList
      = some (strconvItoa (toInt data.ifi_iqdrops)) ∧
    (devStatsOf data).get? "transmit_drop".toList
      = some (strconvItoa (toInt data.ifi_oqdrops)) :=
  ⟨rfl, rfl, rfl, rfl, rfl, rfl, rfl, rfl, rfl, rfl⟩

theorem strconvItoa_toInt_of_lt (x : Nat) (h : x < 2 ^ 63) :
    strconvItoa (toInt x) = Nat.toDigits 10 x := by
  have hmod : x % 2 ^ 64 = x := Nat.mod_eq_of_lt (by omega)
  unfold toInt strconvItoa
  rw [hmod, if_pos h, if_neg (by omega)]
  rfl

theorem strconvItoa_toInt_of_ge (x : Nat) (h1 : 2 ^ 63 ≤ x) (h2 : x < 2 ^ 64) :
    strconvItoa (toInt x) = '-' :: Nat.toDigits 10 (2 ^ 64 - x) := by
  have hmod : x % 2 ^ 64 = x := Nat.mod_eq_of_lt h2
  have hnot : ¬ x < 2 ^ 63 := by omega
  have hneg : ((x : Nat) : Int) - 2 ^ 64 < 0 := by omega
  have habs : (((x : Nat) : Int) - 2 ^ 64).natAbs = 2 ^ 64 - x := by omega
  unfold toInt strconvItoa
  rw [hmod, if_neg hnot, if_pos hneg, habs]

/-- C7. Record filtering: the walk over any enumerated list succeeds; the device keys of
the result, each present once, are exactly the names of the records whose family is
`AF_LINK`; the records of any other family contribute nothing (the result is the one of
the list without them); and every device of the result has exactly the ten counters of
the fixed vocabulary. -/
theorem c7_record_filtering (recs : List ifaddrs) :
    ∃ stats, getNetDevStats (some recs) = .ok stats ∧
      (∀ d, d ∈ stats.keys ↔ ∃ r ∈ recs, r.sa_family = AF_LINK ∧ r.ifa_name = d) ∧
      stats.keys.Nodup ∧
      getNetDevStats (some (recs.filter (fun r => decide (r.sa_family = AF_LINK))))
        = .ok stats ∧
      (∀ d ∈ stats.keys, ∃ cs, stats.get? d = some cs ∧ cs.len = 10 ∧ cs.keys.Nodup ∧
        ∀ k, k ∈ cs.keys ↔ k ∈ counterNames) := by
  refine ⟨walk recs GoMap.empty, rfl, ?_, ?_, ?_, ?_⟩
  · intro d
    rw [walk_keys]
    simp [GoMap.keys, GoMap.empty]
  · exact walk_nodup recs GoMap.empty List.nodup_nil
  · show Except.ok (walk _ GoMap.empty) = Except.ok (walk recs GoMap.empty)
    rw [walk_filter]
  · intro d hd
    rw [GoMap.mem_keys_iff] at hd
    obtain ⟨cs, hcs⟩ := Option.isSome_iff_exists.1 hd
    refine ⟨cs, hcs, ?_⟩
    rcases walk_get?_source recs GoMap.empty d cs hcs with h | ⟨r, _, _, _, rfl⟩
    · cases h
    · refine ⟨devStatsOf_len _, devStatsOf_nodup _, ?_⟩
      intro k
      rw [devStatsOf_keys, List.mem_reverse]

/-- Witness of C7: the scenario list (link-layer records `lo0` and `en0`, and an address
record of `en0`) gives exactly the keys `lo0` and `en0`. -/
theorem c7_record_filtering_witness :
    (∃ stats, getNetDevStats (some scenarioList) = .ok stats ∧
      stats.keys = ["en0".toList, "lo0".toList]) ∧
    ∃ stats, getNetDevStats (some scenarioList) = .ok stats ∧
      (∀ d, d ∈ stats.keys ↔ ∃ r ∈ scenarioList, r.sa_family = AF_LINK ∧ r.ifa_name = d) ∧
      stats.keys.Nodup ∧
      getNetDevStats (some (scenarioList.filter (fun r => decide (r.sa_family = AF_LINK))))
        = .ok stats ∧
      (∀ d ∈ stats.keys, ∃ cs, stats.get? d = some cs ∧ cs.len = 10 ∧ cs.keys.Nodup ∧
        ∀ k, k ∈ cs.keys ↔ k ∈ counterNames) :=
  ⟨⟨_, rfl, rfl⟩, c7_record_filtering scenarioList⟩

/-- C10. Duplicates: when several link-layer records carry the same device name, the
counter set of that device in the result is exactly the one built from the last such
record of the list, counter by counter; nothing of an earlier record remains. -/
theorem c10_last_record_wins (pre post : List ifaddrs) (r : ifaddrs)
    (hlink : r.sa_family = AF_LINK)
    (hlast : ∀ x ∈ post, x.sa_family = AF_LINK → x.ifa_name ≠ r.ifa_name) :
    ∃ stats, getNetDevStats (some (pre ++ r :: post)) = .ok stats ∧
      stats.get? r.ifa_name = some (devStatsOf r.ifa_data) ∧
      (devStatsOf r.ifa_data).keys.Nodup ∧
      ∀ cs, stats.get? r.ifa_name = some cs →
        cs.get? "receive_packets".toList = some (strconvItoa (toInt r.ifa_data.ifi_ipackets)) ∧
        cs.get? "transmit_packets".toList = some (strconvItoa (toInt r.ifa_data.ifi_opackets)) ∧
        cs.get? "receive_errs".toList = some (strconvItoa (toInt r.ifa_data.ifi_ierrors)) ∧
        cs.get? "transmit_errs".toList = some (strconvItoa (toInt r.ifa_data.ifi_oerrors)) ∧
        cs.get? "receive_bytes".toList = some (strconvItoa (toInt r.ifa_data.ifi_ibytes)) ∧
        cs.get? "transmit_bytes".toList = some (strconvItoa (toInt r.ifa_data.ifi_obytes)) ∧
        cs.get? "receive_multicast".toList
          = some (strconvItoa (toInt r.ifa_data.ifi_imcasts)) ∧
        cs.get? "transmit_multicast".toList
          = some (strconvItoa (toInt r.ifa_data.ifi_omcasts)) ∧
        cs.get? "receive_drop".toList = some (strconvItoa (toInt r.ifa_data.ifi_iqdrops)) ∧
        cs.get? "transmit_drop".toList = some (strconvItoa (toInt r.ifa_data.ifi_oqdrops)) := by
  have hget : (walk (pre ++ r :: post) GoMap.empty).get? r.ifa_name
      = some (devStatsOf r.ifa_data) := by
    rw [walk_append]
    simp only [walk, hlink, if_true]
    rw [walk_get?_untouched r.ifa_name post _ hlast, GoMap.get?_set, if_pos rfl]
  refine ⟨walk (pre ++ r :: post) GoMap.empty, rfl, hget, devStatsOf_nodup _, ?_⟩
  intro cs hcs
  rw [hget] at hcs
  cases hcs
  exact devStatsOf_get? r.ifa_data

/-- Witness of C10: two link-layer records of `en0` followed by an address record of
`en0`; the counters of `en0` are those of the second record. -/
theorem c10_last_record_wins_witness :
    ∃ stats, getNetDevStats (some ([⟨"en0".toList, AF_LINK, ⟨1, 2, 3, 4, 5, 6, 7, 8, 9, 10⟩⟩]
        ++ ⟨"en0".toList, AF_LINK, ⟨11, 12, 13, 14, 15, 16, 17, 18, 19, 20⟩⟩
          :: [⟨"en0".toList, AF_INET, ⟨0, 0, 0, 0, 0, 0, 0, 0, 0, 0⟩⟩])) = .ok stats ∧
      stats.get? "en0".toList = some (devStatsOf ⟨11, 12, 13, 14, 15, 16, 17, 18, 19, 20⟩) :=
  (c10_last_record_wins [⟨"en0".toList, AF_LINK, ⟨1, 2, 3, 4, 5, 6, 7, 8, 9, 10⟩⟩]
    [⟨"en0".toList, AF_INET, ⟨0, 0, 0, 0, 0, 0, 0, 0, 0, 0⟩⟩]
    ⟨"en0".toList, AF_LINK, ⟨11, 12, 13, 14, 15, 16, 17, 18, 19, 20⟩⟩ rfl (by decide)).imp
    (fun _ h => ⟨h.1, h.2.1⟩)

/-- C8, the code at the failing input. The link-layer record of `em0` has the input packet
counter `2^63`, a value of an unsigned 64-bit field; the emitted `receive_packets` is the
text `-9223372036854775808`, which is not the decimal representation of the field. -/
theorem c8_value_conversion_failing_input :
    hugeCounterRecord.sa_family = AF_LINK ∧
    hugeCounterRecord.ifa_data.ifi_ipackets = 2 ^ 63 ∧
    hugeCounterRecord.ifa_data.ifi_ipackets < 2 ^ 64 ∧
    getNetDevStats (some [hugeCounterRecord])
      = .ok [("em0".toList, devStatsOf hugeCounterRecord.ifa_data)] ∧
    (devStatsOf hugeCounterRecord.ifa_data).get? "receive_packets".toList
      = some "-9223372036854775808".toList ∧
    "-9223372036854775808".toList ≠ Nat.toDigits 10 hugeCounterRecord.ifa_data.ifi_ipackets ∧
    Nat.toDigits 10 hugeCounterRecord.ifa_data.ifi_ipackets = "9223372036854775808".toList :=
  ⟨rfl, rfl, by decide, rfl, by decide, by decide, by decide⟩

/-- Below `2^63` the conversion is exact: every counter of a link-layer record whose ten
fields are below `2^63` is emitted as the decimal representation of its field. -/
theorem value_conversion_below_bound (data : if_data)
    (h : data.ifi_ipackets < 2 ^ 63 ∧ data.ifi_opackets < 2 ^ 63 ∧ data.ifi_ierrors < 2 ^ 63 ∧
      data.ifi_oerrors < 2 ^ 63 ∧ data.ifi_ibytes < 2 ^ 63 ∧ data.ifi_obytes < 2 ^ 63 ∧
      data.ifi_imcasts < 2 ^ 63 ∧ data.ifi_omcasts < 2 ^ 63 ∧ data.ifi_iqdrops < 2 ^ 63 ∧
      data.ifi_oqdrops < 2 ^ 63) :
    (devStatsOf data).get? "receive_packets".toList = some (Nat.toDigits 10 data.ifi_ipackets) ∧
    (devStatsOf data).get? "transmit_packets".toList = some (Nat.toDigits 10 data.ifi_opackets) ∧
    (devStatsOf data).get? "receive_errs".toList = some (Nat.toDigits 10 data.ifi_ierrors) ∧
    (devStatsOf data).get? "transmit_errs".toList = some (Nat.toDigits 10 data.ifi_oerrors) ∧
    (devStatsOf data).get? "receive_bytes".toList = some (Nat.toDigits 10 data.ifi_ibytes) ∧
    (devStatsOf data).get? "transmit_bytes".toList = some (Nat.toDigits 10 data.ifi_obytes) ∧
    (devStatsOf data).get? "receive_multicast".toList
      = some (Nat.toDigits 10 data.ifi_imcasts) ∧
    (devStatsOf data).get? "transmit_multicast".toList
      = some (Nat.toDigits 10 data.ifi_omcasts) ∧
    (devStatsOf data).get? "receive_drop".toList = some (Nat.toDigits 10 data.ifi_iqdrops) ∧
    (devStatsOf data).get? "transmit_drop".toList = some (Nat.toDigits 10 data.ifi_oqdrops) := by
  obtain ⟨h1, h2, h3, h4, h5, h6, h7, h8, h9, h10⟩ := h
  obtain ⟨g1, g2, g3, g4, g5, g6, g7, g8, g9, g10⟩ := devStatsOf_get? data
  rw [strconvItoa_toInt_of_lt _ h1] at g1
  rw [strconvItoa_toInt_of_lt _ h2] at g2
  rw [strconvItoa_toInt_of_lt _ h3] at g3
  rw [strconvItoa_toInt_of_lt _ h4] at g4
  rw [strconvItoa_toInt_of_lt _ h5] at g5
  rw [strconvItoa_toInt_of_lt _ h6] at g6
  rw [strconvItoa_toInt_of_lt _ h7] at g7
  rw [strconvItoa_toInt_of_lt _ h8] at g8
  rw [strconvItoa_toInt_of_lt _ h9] at g9
  rw [strconvItoa_toInt_of_lt _ h10] at g10
  exact ⟨g1, g2, g3, g4, g5, g6, g7, g8, g9, g10⟩

end FreeBSD

end Collector
